import Mathlib

/-!
Shallow embedding of the `teehistorian` decoder fragment of libtw2
(`src/teehistorian/src/format/mod.rs`) together with the parts of the
format that the specification describes but whose source is not part of
the visible fragment (the item decoder, the per-client state table, and
the `packer::Unpacker` collaborator).  Machine integers are modelled as
`Nat`/`Int` with explicit range checks; fallible operations return
`Option`/`Except`.  Bytes are modelled as `Nat` values; genuine byte
buffers have all entries `< 256`, and theorems that need this state it
as a hypothesis.
-/

namespace Teehistorian

/-- `i32::MAX`, the maximum representable signed 32-bit value. -/
def INT32_MAX : Int := 2147483647

/-- Modelled from the spec: the `packer::Unpacker` collaborator is a
"sequential cursor over a byte buffer"; we keep only the bytes that
remain ahead of the cursor. -/
structure Unpacker where
  data : List Nat
  deriving Repr, DecidableEq

/-- Modelled from the spec: `Unpacker`'s "read N raw bytes" operation;
`none` is the collaborator's `UnexpectedEnd` signal, raised when
insufficient bytes remain. -/
def Unpacker.read_raw (n : Nat) (p : Unpacker) : Option (List Nat × Unpacker) :=
  if n ≤ p.data.length then some (p.data.take n, ⟨p.data.drop n⟩) else none

/-- Modelled from the spec: `Unpacker`'s unsigned variable-length
integer primitive (little-endian base-128: low 7 bits per byte, high
bit set on all but the last byte), used below for string length
prefixes and as the carrier of the signed key encoding. -/
def Unpacker.readVarNat : List Nat → Option (Nat × List Nat)
  | [] => none
  | b :: rest =>
    if b < 128 then some (b, rest)
    else
      match Unpacker.readVarNat rest with
      | none => none
      | some (hi, rest') => some ((b - 128) + 128 * hi, rest')

/-- Worker for `encodeVarNat`; the fuel only forces termination and
any fuel at or above the encoded value is enough. -/
def encodeVarNatAux : Nat → Nat → List Nat
  | 0, n => [n % 128]
  | fuel + 1, n =>
    if n < 128 then [n] else (n % 128 + 128) :: encodeVarNatAux fuel (n / 128)

/-- Little-endian base-128 encoding of a `Nat`, the inverse of
`Unpacker.readVarNat`. -/
def encodeVarNat (n : Nat) : List Nat := encodeVarNatAux n n

instance {ε α : Type _} [DecidableEq ε] [DecidableEq α] : DecidableEq (Except ε α) := fun
  | .error e, .error f =>
    if h : e = f then .isTrue (by rw [h]) else .isFalse (by intro c; cases c; exact h rfl)
  | .error _, .ok _ => .isFalse (by intro c; cases c)
  | .ok _, .error _ => .isFalse (by intro c; cases c)
  | .ok a, .ok b =>
    if h : a = b then .isTrue (by rw [h]) else .isFalse (by intro c; cases c; exact h rfl)

/-- Modelled from the spec: `Unpacker`'s "read one signed
variable-length integer" operation; the sign is carried by a zigzag
step on top of `readVarNat`. -/
def Unpacker.read_int (p : Unpacker) : Option (Int × Unpacker) :=
  match Unpacker.readVarNat p.data with
  | none => none
  | some (n, rest) =>
    if n % 2 = 0 then some ((n / 2 : Nat), ⟨rest⟩)
    else some (-(((n + 1) / 2 : Nat) : Int), ⟨rest⟩)

/-- Zigzag encoding of a signed key into the unsigned varint carrier,
the inverse of the sign step of `Unpacker.read_int`. -/
def zigzag (k : Int) : Nat :=
  if 0 ≤ k then 2 * k.toNat else 2 * (-k).toNat - 1

/-- Encoding of one signed key as bytes, the inverse of
`Unpacker.read_int`. -/
def encodeInt (k : Int) : List Nat := encodeVarNat (zigzag k)

/-- Modelled from the spec: `Unpacker`'s "read one length-prefixed text
payload" operation: a varint length followed by that many raw bytes. -/
def Unpacker.read_string (p : Unpacker) : Option (List Nat × Unpacker) :=
  match Unpacker.readVarNat p.data with
  | none => none
  | some (n, rest) => Unpacker.read_raw n ⟨rest⟩

/-- Length-prefixed encoding of a payload, the inverse of
`Unpacker.read_string`. -/
def encodeString (s : List Nat) : List Nat := encodeVarNat s.length ++ s

/-- `MAGIC_LEN` from `format/mod.rs`. -/
def MAGIC_LEN : Nat := 16

/-- `UUID` from `format/mod.rs`: the fixed 16-byte format identifier
"699db17b-8efb-34ff-b1d8-da6f60c15dd1". -/
def UUID : List Nat :=
  [0x69, 0x9d, 0xb1, 0x7b, 0x8e, 0xfb, 0x34, 0xff,
   0xb1, 0xd8, 0xda, 0x6f, 0x60, 0xc1, 0x5d, 0xd1]

/-- `MaybeEnd<E>` from `format/mod.rs`: either a domain error or the
unpacking layer's `UnexpectedEnd` signal. -/
inductive MaybeEnd (E : Type) where
  | Err (e : E)
  | UnexpectedEnd
  deriving Repr, DecidableEq

/-- `WrongMagic` from `format/mod.rs`. -/
inductive WrongMagic where
  | mk
  deriving Repr, DecidableEq

/-- `HeaderError` from `format/mod.rs`. -/
inductive HeaderError where
  | WrongMagic
  | MalformedJson
  | MalformedHeader
  | MalformedVersion
  | MalformedMapSize
  | MalformedMapCrc
  deriving Repr, DecidableEq

/-- `read_magic` from `format/mod.rs`: read 16 raw bytes and compare
them with `UUID`. -/
def read_magic (p : Unpacker) : Except (MaybeEnd WrongMagic) Unpacker :=
  match Unpacker.read_raw MAGIC_LEN p with
  | none => .error .UnexpectedEnd
  | some (magic, p') =>
    if magic ≠ UUID then .error (.Err .mk) else .ok p'

/-! ### JSON model

`read_header` delegates structured-text parsing to the external
`serde_json` collaborator.  We embed it as a small executable JSON
parser over byte lists: `jsonParse` is the syntax phase (its `none` is
`serde_json`'s syntax error, mapped to `MalformedJson`), and
`extractHeader` is the data phase of deserializing the `JsonHeader`
struct (its `none` is a data error — missing, duplicated or mistyped
field — mapped to `MalformedHeader`).  Text is modelled at the byte
level; string literals accept literal bytes `0x20..0xff` plus the
standard escapes (`\u` escapes restricted to `\u00XX`). -/

/-- JSON values.  Number tokens are kept as raw text, which is all the
header reader ever needs of them. -/
inductive JVal where
  | jnull
  | jbool (b : Bool)
  | jnum (s : List Nat)
  | jstr (s : List Nat)
  | jarr (xs : List JVal)
  | jobj (ms : List (List Nat × JVal))

/-- JSON insignificant whitespace. -/
def isWs (b : Nat) : Bool := b = 32 || b = 9 || b = 10 || b = 13

/-- Drop leading JSON whitespace. -/
def skipWs : List Nat → List Nat
  | [] => []
  | b :: rest => if isWs b then skipWs rest else b :: rest

/-- Value of one hexadecimal digit byte (both cases accepted). -/
def hexDigitVal (b : Nat) : Option Nat :=
  if 48 ≤ b ∧ b ≤ 57 then some (b - 48)
  else if 97 ≤ b ∧ b ≤ 102 then some (b - 87)
  else if 65 ≤ b ∧ b ≤ 70 then some (b - 55)
  else none

/-- Bytes that may continue a JSON number token. -/
def isNumByte (b : Nat) : Bool :=
  (48 ≤ b && b ≤ 57) || b = 45 || b = 43 || b = 46 || b = 101 || b = 69

/-- Parse the body of a JSON string literal (the opening quote already
consumed), returning the decoded bytes and the input after the closing
quote.  The fuel argument only forces termination; any fuel above the
number of decoded characters is enough. -/
def parseStrBody : Nat → List Nat → Option (List Nat × List Nat)
  | 0, _ => none
  | _ + 1, [] => none
  | fuel + 1, b :: rest =>
    if b = 34 then some ([], rest)
    else if b = 92 then
      match rest with
      | [] => none
      | e :: rest' =>
        let dec :=
          if e = 34 then some (34, rest')
          else if e = 92 then some (92, rest')
          else if e = 47 then some (47, rest')
          else if e = 98 then some (8, rest')
          else if e = 102 then some (12, rest')
          else if e = 110 then some (10, rest')
          else if e = 114 then some (13, rest')
          else if e = 116 then some (9, rest')
          else if e = 117 then
            match rest' with
            | h1 :: h2 :: h3 :: h4 :: rest2 =>
              match hexDigitVal h1, hexDigitVal h2, hexDigitVal h3, hexDigitVal h4 with
              | some d1, some d2, some d3, some d4 =>
                if d1 = 0 ∧ d2 = 0 then some (d3 * 16 + d4, rest2) else none
              | _, _, _, _ => none
            | _ => none
          else none
        match dec with
        | none => none
        | some (c, r) =>
          match parseStrBody fuel r with
          | none => none
          | some (s, rem) => some (c :: s, rem)
    else if 32 ≤ b ∧ b < 256 then
      match parseStrBody fuel rest with
      | none => none
      | some (s, rem) => some (b :: s, rem)
    else none

mutual

/-- Parse one JSON value from input whose first byte is significant.
Fuel only forces termination: any fuel above the input length is
enough. -/
def parseVal : Nat → List Nat → Option (JVal × List Nat)
  | 0, _ => none
  | _ + 1, [] => none
  | fuel + 1, b :: rest =>
    if b = 34 then
      match parseStrBody fuel rest with
      | none => none
      | some (s, r) => some (.jstr s, r)
    else if b = 123 then parseMembers fuel (skipWs rest) true
    else if b = 91 then parseElems fuel (skipWs rest) true
    else if b = 110 then
      match rest with
      | 117 :: 108 :: 108 :: r => some (.jnull, r)
      | _ => none
    else if b = 116 then
      match rest with
      | 114 :: 117 :: 101 :: r => some (.jbool true, r)
      | _ => none
    else if b = 102 then
      match rest with
      | 97 :: 108 :: 115 :: 101 :: r => some (.jbool false, r)
      | _ => none
    else if b = 45 ∨ (48 ≤ b ∧ b ≤ 57) then
      let tok := List.takeWhile isNumByte rest
      some (.jnum (b :: tok), List.drop tok.length rest)
    else none

/-- Parse the members of a JSON object (the opening brace and leading
whitespace already consumed). -/
def parseMembers : Nat → List Nat → Bool → Option (JVal × List Nat)
  | 0, _, _ => none
  | _ + 1, [], _ => none
  | fuel + 1, b :: rest, first =>
    if first ∧ b = 125 then some (.jobj [], rest)
    else if b = 34 then
      match parseStrBody fuel rest with
      | none => none
      | some (k, r1) =>
        match skipWs r1 with
        | 58 :: r2 =>
          match parseVal fuel (skipWs r2) with
          | none => none
          | some (v, r3) =>
            match skipWs r3 with
            | 44 :: r4 =>
              match parseMembers fuel (skipWs r4) false with
              | some (.jobj ms, r5) => some (.jobj ((k, v) :: ms), r5)
              | _ => none
            | 125 :: r4 => some (.jobj [(k, v)], r4)
            | _ => none
        | _ => none
    else none

/-- Parse the elements of a JSON array (the opening bracket and leading
whitespace already consumed). -/
def parseElems : Nat → List Nat → Bool → Option (JVal × List Nat)
  | 0, _, _ => none
  | _ + 1, [], _ => none
  | fuel + 1, b :: rest, first =>
    if first ∧ b = 93 then some (.jarr [], rest)
    else
      match parseVal fuel (b :: rest) with
      | none => none
      | some (v, r1) =>
        match skipWs r1 with
        | 44 :: r2 =>
          match parseElems fuel (skipWs r2) false with
          | some (.jarr xs, r3) => some (.jarr (v :: xs), r3)
          | _ => none
        | 93 :: r2 => some (.jarr [v], r2)
        | _ => none

end

/-- The syntax phase of `serde_json::from_slice`: parse one JSON value
and require that only whitespace follows it. -/
def jsonParse (pl : List Nat) : Option JVal :=
  match parseVal (pl.length + 1) (skipWs pl) with
  | none => none
  | some (v, rest) => if skipWs rest = [] then some v else none

/-- `JsonHeader` from `format/mod.rs`: the four header fields, all as
text. -/
structure JsonHeader where
  version : List Nat
  map_name : List Nat
  map_size : List Nat
  map_crc : List Nat
  deriving Repr, DecidableEq

/-- The bytes of the field name "version". -/
def keyVersion : List Nat := [118, 101, 114, 115, 105, 111, 110]

/-- The bytes of the field name "map_name". -/
def keyMapName : List Nat := [109, 97, 112, 95, 110, 97, 109, 101]

/-- The bytes of the field name "map_size". -/
def keyMapSize : List Nat := [109, 97, 112, 95, 115, 105, 122, 101]

/-- The bytes of the field name "map_crc". -/
def keyMapCrc : List Nat := [109, 97, 112, 95, 99, 114, 99]

/-- Accumulator for the field-gathering pass of `extractHeader`. -/
structure PartialHeader where
  version : Option (List Nat)
  map_name : Option (List Nat)
  map_size : Option (List Nat)
  map_crc : Option (List Nat)
  deriving Repr, DecidableEq

/-- The member-visiting pass of `serde`'s derived deserializer: a
required field must be a string and must not repeat; unknown fields are
ignored. -/
def gatherFields : List (List Nat × JVal) → PartialHeader → Option PartialHeader
  | [], acc => some acc
  | (k, v) :: ms, acc =>
    if k = keyVersion then
      match acc.version, v with
      | none, .jstr s => gatherFields ms { acc with version := some s }
      | _, _ => none
    else if k = keyMapName then
      match acc.map_name, v with
      | none, .jstr s => gatherFields ms { acc with map_name := some s }
      | _, _ => none
    else if k = keyMapSize then
      match acc.map_size, v with
      | none, .jstr s => gatherFields ms { acc with map_size := some s }
      | _, _ => none
    else if k = keyMapCrc then
      match acc.map_crc, v with
      | none, .jstr s => gatherFields ms { acc with map_crc := some s }
      | _, _ => none
    else gatherFields ms acc

/-- Whether a member key is one of the four required header fields. -/
def isRequiredKey (k : List Nat) : Bool :=
  decide (k = keyVersion ∨ k = keyMapName ∨ k = keyMapSize ∨ k = keyMapCrc)

/-- The data phase of `serde_json::from_slice::<JsonHeader>`: the value
must be an object holding each required field exactly once as a
string. -/
def extractHeader : JVal → Option JsonHeader
  | .jobj ms =>
    match gatherFields ms ⟨none, none, none, none⟩ with
    | some ⟨some v, some n, some s, some c⟩ => some ⟨v, n, s, c⟩
    | _ => none
  | _ => none

/-- Value of one decimal digit byte. -/
def digitVal (b : Nat) : Option Nat :=
  if 48 ≤ b ∧ b ≤ 57 then some (b - 48) else none

/-- Accumulate digit bytes left to right; fails on the first non-digit. -/
def digitsAcc (base : Nat) (digitF : Nat → Option Nat) : List Nat → Nat → Option Nat
  | [], acc => some acc
  | b :: rest, acc =>
    match digitF b with
    | none => none
    | some d => digitsAcc base digitF rest (acc * base + d)

/-- Parse one or more digit bytes as a `Nat`. -/
def parseNatRadix (base : Nat) (digitF : Nat → Option Nat) (s : List Nat) : Option Nat :=
  match s with
  | [] => none
  | _ => digitsAcc base digitF s 0

/-- Rust's `str::parse::<u32>`: optional leading `+`, one or more
decimal digits, value below `2^32`. -/
def parse_u32 (s : List Nat) : Option Nat :=
  let body := if s.head? = some 43 then s.tail else s
  match parseNatRadix 10 digitVal body with
  | none => none
  | some n => if n < 4294967296 then some n else none

/-- Rust's `u32::from_str_radix(_, 16)`: optional leading `+`, one or
more hexadecimal digits, value below `2^32`. -/
def parseHex_u32 (s : List Nat) : Option Nat :=
  let body := if s.head? = some 43 then s.tail else s
  match parseNatRadix 16 hexDigitVal body with
  | none => none
  | some n => if n < 4294967296 then some n else none

/-- Rust's `str::parse::<i32>`: optional sign, one or more decimal
digits, value in the `i32` range. -/
def parse_i32 (s : List Nat) : Option Int :=
  if s.head? = some 45 then
    match parseNatRadix 10 digitVal s.tail with
    | none => none
    | some n => if n ≤ 2147483648 then some (-(n : Int)) else none
  else
    let body := if s.head? = some 43 then s.tail else s
    match parseNatRadix 10 digitVal body with
    | none => none
    | some n => if n ≤ 2147483647 then some ((n : Int)) else none

/-- `Header` from `format/mod.rs`. -/
structure Header where
  version : Int
  map_name : List Nat
  map_size : Nat
  map_crc : Nat
  deriving Repr, DecidableEq

/-- The post-syntax part of `read_header`: deserialize the
`JsonHeader` struct, then convert its text fields in declaration
order. -/
def headerOfJson (v : JVal) : Except HeaderError Header :=
  match extractHeader v with
  | none => .error .MalformedHeader
  | some jh =>
    match parse_i32 jh.version with
    | none => .error .MalformedVersion
    | some ver =>
      match parse_u32 jh.map_size with
      | none => .error .MalformedMapSize
      | some sz =>
        match parseHex_u32 jh.map_crc with
        | none => .error .MalformedMapCrc
        | some crc => .ok ⟨ver, jh.map_name, sz, crc⟩

/-- `read_header` from `format/mod.rs`: read the length-prefixed
payload, parse it as JSON (`MalformedJson` on a syntax error,
`MalformedHeader` on a data error), then convert the text fields. -/
def read_header (p : Unpacker) : Except (MaybeEnd HeaderError) (Header × Unpacker) :=
  match Unpacker.read_string p with
  | none => .error .UnexpectedEnd
  | some (pl, p') =>
    match jsonParse pl with
    | none => .error (.Err .MalformedJson)
    | some v =>
      match headerOfJson v with
      | .error e => .error (.Err e)
      | .ok h => .ok (h, p')

/-! ### Item decoder

The item decoder (`decode_next`, the per-client state table, and the
key/payload layout) is repository code that is not part of the visible
fragment (`src/` holds only its error enum and module declaration), so
it is modelled from the spec below.  The per-record error enum itself
is `Error` from `format/mod.rs`. -/

/-- `item::Error` from the `item` submodule; its definition is not part
of the visible fragment and no claim exercises it, so it is embedded as
an empty type. -/
inductive ItemError where

instance : DecidableEq ItemError := fun a _ => nomatch a

/-- `Error` from `format/mod.rs`. -/
inductive Error where
  | Header (e : HeaderError)
  | Item (e : ItemError)
  | UnknownVersion
  | TickOverflow
  | UnexpectedEnd
  | InvalidClientId
  | PlayerNewDuplicate
  | PlayerDiffWithoutNew
  | PlayerOldWithoutNew
  | InputNewDuplicate
  | InputDiffWithoutNew
  deriving DecidableEq

/-- Modelled from the spec: `MAX_CLIENTS`, the fixed format-defined
capacity of the per-client state table. -/
def MAX_CLIENTS : Nat := 64

/-- Modelled from the spec: the number of control-axis/button-like
fields of one input snapshot (a fixed, format-defined count). -/
def INPUT_LEN : Nat := 10

/-- Modelled from the spec: the per-client player-presence state;
`Present` holds the last full or diffed snapshot. -/
inductive PlayerState where
  | Absent
  | Present (x y : Int)
  deriving Repr, DecidableEq

/-- Modelled from the spec: the per-client input-presence state;
`Active` holds the last full or diffed input vector. -/
inductive InputState where
  | Inactive
  | Active (fields : List Int)
  deriving Repr, DecidableEq

/-- One slot of the per-client state table. -/
structure ClientSt where
  player : PlayerState
  input : InputState
  deriving Repr, DecidableEq

/-- The state of an absent client, also the initial state of every
slot. -/
def freshClient : ClientSt := ⟨.Absent, .Inactive⟩

/-- Modelled from the spec: the State Table at stream start — every
client `Absent`/`Inactive`. -/
def initTable : List ClientSt := List.replicate MAX_CLIENTS freshClient

/-- The five typed item kinds of the visible core. -/
inductive ItemKind where
  | PlayerNew
  | PlayerDiff
  | PlayerOld
  | InputNew
  | InputDiff
  deriving Repr, DecidableEq

/-- Modelled from the spec: the decoded form of one record key — a
non-negative key is a tick advance, a negative key carries an item kind
and a client id. -/
inductive Key where
  | TickAdvance (delta : Int)
  | Item (kind : ItemKind) (cid : Nat)
  deriving Repr, DecidableEq

/-- Item kind of one tag value in `0..4`. -/
def kindOfTag (t : Nat) : ItemKind :=
  if t = 0 then .PlayerNew
  else if t = 1 then .PlayerDiff
  else if t = 2 then .PlayerOld
  else if t = 3 then .InputNew
  else .InputDiff

/-- Tag value of one item kind, the inverse of `kindOfTag`. -/
def tagOfKind : ItemKind → Nat
  | .PlayerNew => 0
  | .PlayerDiff => 1
  | .PlayerOld => 2
  | .InputNew => 3
  | .InputDiff => 4

/-- Modelled from the spec: the key value space is partitioned — keys
`≥ 0` are tick advances; the magnitude of a negative key jointly
encodes the item kind and the client id without ambiguity.  The exact
bit/range split is format-defined but not visible; the model fixes the
split `m = 5 * cid + tag` for `m = -key - 1`. -/
def decodeKey (k : Int) : Key :=
  if 0 ≤ k then .TickAdvance k
  else
    let m := (-k - 1).toNat
    .Item (kindOfTag (m % 5)) (m / 5)

/-- Signed key of one decoded key, the inverse of `decodeKey`. -/
def keyOf : Key → Int
  | .TickAdvance d => d
  | .Item kind cid => -(((5 * cid + tagOfKind kind : Nat) : Int) + 1)

/-- Modelled from the spec: the number of payload integers of each item
kind — a full field set for the `New` kinds, per-field deltas for the
`Diff` kinds, no payload for `PlayerOld`. -/
def payloadLen : ItemKind → Nat
  | .PlayerNew => 2
  | .PlayerDiff => 2
  | .PlayerOld => 0
  | .InputNew => INPUT_LEN
  | .InputDiff => INPUT_LEN

/-- Read `n` signed varints from the unpacker. -/
def readInts : Nat → Unpacker → Option (List Int × Unpacker)
  | 0, p => some ([], p)
  | n + 1, p =>
    match p.read_int with
    | none => none
    | some (x, p') =>
      match readInts n p' with
      | none => none
      | some (xs, p'') => some (x :: xs, p'')

/-- Modelled from the spec: `PlayerNew` transition — `Absent` becomes
`Present` with the full snapshot; an already `Present` client is the
error `PlayerNewDuplicate`. -/
def applyPlayerNew (s : PlayerState) (x y : Int) : Except Error PlayerState :=
  match s with
  | .Absent => .ok (.Present x y)
  | .Present _ _ => .error .PlayerNewDuplicate

/-- Modelled from the spec: `PlayerDiff` transition — the delta is
applied to the prior snapshot of a `Present` client; an `Absent` client
is the error `PlayerDiffWithoutNew`. -/
def applyPlayerDiff (s : PlayerState) (dx dy : Int) : Except Error PlayerState :=
  match s with
  | .Present x y => .ok (.Present (x + dx) (y + dy))
  | .Absent => .error .PlayerDiffWithoutNew

/-- Modelled from the spec: `PlayerOld` transition — a `Present` client
becomes `Absent`; an `Absent` client is the error
`PlayerOldWithoutNew`. -/
def applyPlayerOld : PlayerState → Except Error PlayerState
  | .Present _ _ => .ok .Absent
  | .Absent => .error .PlayerOldWithoutNew

/-- Modelled from the spec: `InputNew` transition — `Inactive` becomes
`Active` with the full input vector; an already `Active` client is the
error `InputNewDuplicate`. -/
def applyInputNew (s : InputState) (xs : List Int) : Except Error InputState :=
  match s with
  | .Inactive => .ok (.Active xs)
  | .Active _ => .error .InputNewDuplicate

/-- Modelled from the spec: `InputDiff` transition — the per-field
deltas are applied to the prior input vector of an `Active` client; an
`Inactive` client is the error `InputDiffWithoutNew`. -/
def applyInputDiff (s : InputState) (ds : List Int) : Except Error InputState :=
  match s with
  | .Active xs => .ok (.Active (List.zipWith (· + ·) xs ds))
  | .Inactive => .error .InputDiffWithoutNew

/-- The transition of one validated typed item on the addressed slot of
the State Table. -/
def applyItemCore (table : List ClientSt) (c : Nat) (kind : ItemKind)
    (payload : List Int) : Except Error (List ClientSt) :=
  let cl := table.getD c freshClient
  match kind with
  | .PlayerNew =>
    (applyPlayerNew cl.player (payload.getD 0 0) (payload.getD 1 0)).map
      fun s => table.set c { cl with player := s }
  | .PlayerDiff =>
    (applyPlayerDiff cl.player (payload.getD 0 0) (payload.getD 1 0)).map
      fun s => table.set c { cl with player := s }
  | .PlayerOld =>
    (applyPlayerOld cl.player).map fun s => table.set c { cl with player := s }
  | .InputNew =>
    (applyInputNew cl.input payload).map fun s => table.set c { cl with input := s }
  | .InputDiff =>
    (applyInputDiff cl.input payload).map fun s => table.set c { cl with input := s }

/-- Modelled from the spec: apply one typed item to the State Table.
The client id is validated first (`InvalidClientId`, nothing mutated);
then the per-client transition from the state-machine table runs on the
addressed slot only. -/
def applyItem (table : List ClientSt) (cid : Int) (kind : ItemKind)
    (payload : List Int) : Except Error (List ClientSt) :=
  if cid < 0 ∨ (MAX_CLIENTS : Int) ≤ cid then .error .InvalidClientId
  else applyItemCore table cid.toNat kind payload

/-- Modelled from the spec: the tick-advance step — the delta is added
to the running counter, `TickOverflow` if the sum would exceed the
maximum representable tick value. -/
def advanceTick (tick delta : Int) : Except Error Int :=
  if INT32_MAX < tick + delta then .error .TickOverflow else .ok (tick + delta)

/-- Run `advanceTick` over a whole sequence of tick-advance deltas; a
failure reports the zero-based index of the offending record. -/
def runTicks : Int → List Int → Except (Nat × Error) Int
  | t, [] => .ok t
  | t, d :: ds =>
    match advanceTick t d with
    | .error e => .error (0, e)
    | .ok t' =>
      match runTicks t' ds with
      | .error (i, e) => .error (i + 1, e)
      | .ok tf => .ok tf

/-- Modelled from the spec: the decoded event yielded for one record. -/
inductive Event where
  | TickAdvance (tick : Int)
  | PlayerNew (cid : Nat) (x y : Int)
  | PlayerDiff (cid : Nat) (dx dy : Int)
  | PlayerOld (cid : Nat)
  | InputNew (cid : Nat) (fields : List Int)
  | InputDiff (cid : Nat) (deltas : List Int)
  deriving Repr, DecidableEq

/-- The event yielded for one successfully applied item. -/
def mkEvent (kind : ItemKind) (cid : Nat) (xs : List Int) : Event :=
  match kind with
  | .PlayerNew => .PlayerNew cid (xs.getD 0 0) (xs.getD 1 0)
  | .PlayerDiff => .PlayerDiff cid (xs.getD 0 0) (xs.getD 1 0)
  | .PlayerOld => .PlayerOld cid
  | .InputNew => .InputNew cid xs
  | .InputDiff => .InputDiff cid xs

/-- The full state of one decode pass: the shared cursor, the running
tick counter and the State Table. -/
structure DecodeState where
  up : Unpacker
  tick : Int
  table : List ClientSt
  deriving Repr, DecidableEq

/-- Modelled from the spec: `decode_next` — pull one key; an empty
buffer at the key position is the clean end of stream; a non-negative
key advances the tick; a negative key decodes a typed item whose client
id is validated before its payload is read; any starvation after the
key position propagates as `UnexpectedEnd`, committing no partial
update. -/
def decode_next (st : DecodeState) : Except Error (Option Event) × DecodeState :=
  if st.up.data = [] then (.ok none, st)
  else
    match st.up.read_int with
    | none => (.error .UnexpectedEnd, st)
    | some (key, up1) =>
      match decodeKey key with
      | .TickAdvance d =>
        match advanceTick st.tick d with
        | .error e => (.error e, { st with up := up1 })
        | .ok t => (.ok (some (.TickAdvance t)), { st with up := up1, tick := t })
      | .Item kind cid =>
        if MAX_CLIENTS ≤ cid then (.error .InvalidClientId, { st with up := up1 })
        else
          match readInts (payloadLen kind) up1 with
          | none => (.error .UnexpectedEnd, { st with up := up1 })
          | some (xs, up2) =>
            match applyItem st.table (cid : Int) kind xs with
            | .error e => (.error e, { st with up := up2 })
            | .ok tbl =>
              (.ok (some (mkEvent kind cid xs)), { st with up := up2, table := tbl })

/-! ### Header re-encoding

For the round-trip property the parsed header fields are re-encoded
into the same text document shape: `version` and `map_size` as decimal
text, `map_crc` as hexadecimal text, all four values as JSON string
members of one object. -/

/-- Lowercase hexadecimal digit byte of a value below 16. -/
def hexDigitChar (d : Nat) : Nat := if d < 10 then 48 + d else 87 + d

/-- JSON string escaping of one byte: quote and backslash get a
backslash escape, control bytes a `\u00XX` escape, everything else is
literal. -/
def escapeByte (b : Nat) : List Nat :=
  if b = 34 then [92, 34]
  else if b = 92 then [92, 92]
  else if b < 32 then [92, 117, 48, 48, hexDigitChar (b / 16), hexDigitChar (b % 16)]
  else [b]

/-- JSON string escaping of a byte string. -/
def escapeStr : List Nat → List Nat
  | [] => []
  | b :: s => escapeByte b ++ escapeStr s

/-- A JSON string literal: quote, escaped body, quote. -/
def strLit (s : List Nat) : List Nat := 34 :: (escapeStr s ++ [34])

/-- Decimal text of a `Nat`. -/
def printNat (n : Nat) : List Nat :=
  if n = 0 then [48] else (Nat.digits 10 n).reverse.map (fun d => d + 48)

/-- Lowercase hexadecimal text of a `Nat`. -/
def printHexNat (n : Nat) : List Nat :=
  if n = 0 then [48] else (Nat.digits 16 n).reverse.map hexDigitChar

/-- Decimal text of an `Int`, with a leading minus sign when
negative. -/
def printInt (v : Int) : List Nat :=
  if v < 0 then 45 :: printNat (-v).toNat else printNat v.toNat

/-- The bytes of a comma-separated list of string-valued members. -/
def membersBytes : List (List Nat × List Nat) → List Nat
  | [] => []
  | [(k, v)] => strLit k ++ 58 :: strLit v
  | (k, v) :: m :: ms => strLit k ++ 58 :: (strLit v ++ 44 :: membersBytes (m :: ms))

/-- The four members of a re-encoded header document. -/
def headerMembers (h : Header) : List (List Nat × List Nat) :=
  [(keyVersion, printInt h.version), (keyMapName, h.map_name),
   (keyMapSize, printNat h.map_size), (keyMapCrc, printHexNat h.map_crc)]

/-- The re-encoded header document: one JSON object with the four
required fields in declaration order, all values as text. -/
def encodeHeaderDoc (h : Header) : List Nat :=
  123 :: (membersBytes (headerMembers h) ++ [125])

/-- The re-encoded header payload as read by `read_header`: the
document behind a length prefix. -/
def encodeHeaderBytes (h : Header) : List Nat := encodeString (encodeHeaderDoc h)

/-! ### UUID version 3

The source's `correct_uuid` test derives `UUID` from the Teeworlds
namespace UUID and the name "teehistorian@ddnet.tw" by the standard
deterministic version-3 scheme of RFC 4122: an MD5 hash of the
namespace bytes followed by the name, with the version and variant
bits patched in.  MD5 is embedded below from RFC 1321, over `Nat` with
explicit 32-bit masking. -/

/-- The per-operation left-rotation amounts of MD5. -/
def MD5_S : List Nat :=
  [7, 12, 17, 22, 7, 12, 17, 22, 7, 12, 17, 22, 7, 12, 17, 22,
   5, 9, 14, 20, 5, 9, 14, 20, 5, 9, 14, 20, 5, 9, 14, 20,
   4, 11, 16, 23, 4, 11, 16, 23, 4, 11, 16, 23, 4, 11, 16, 23,
   6, 10, 15, 21, 6, 10, 15, 21, 6, 10, 15, 21, 6, 10, 15, 21]

/-- The 64 sine-derived constants of MD5. -/
def MD5_K : List Nat :=
  [0xd76aa478, 0xe8c7b756, 0x242070db, 0xc1bdceee,
   0xf57c0faf, 0x4787c62a, 0xa8304613, 0xfd469501,
   0x698098d8, 0x8b44f7af, 0xffff5bb1, 0x895cd7be,
   0x6b901122, 0xfd987193, 0xa679438e, 0x49b40821,
   0xf61e2562, 0xc040b340, 0x265e5a51, 0xe9b6c7aa,
   0xd62f105d, 0x2441453, 0xd8a1e681, 0xe7d3fbc8,
   0x21e1cde6, 0xc33707d6, 0xf4d50d87, 0x455a14ed,
   0xa9e3e905, 0xfcefa3f8, 0x676f02d9, 0x8d2a4c8a,
   0xfffa3942, 0x8771f681, 0x6d9d6122, 0xfde5380c,
   0xa4beea44, 0x4bdecfa9, 0xf6bb4b60, 0xbebfbc70,
   0x289b7ec6, 0xeaa127fa, 0xd4ef3085, 0x4881d05,
   0xd9d4d039, 0xe6db99e5, 0x1fa27cf8, 0xc4ac5665,
   0xf4292244, 0x432aff97, 0xab9423a7, 0xfc93a039,
   0x655b59c3, 0x8f0ccc92, 0xffeff47d, 0x85845dd1,
   0x6fa87e4f, 0xfe2ce6e0, 0xa3014314, 0x4e0811a1,
   0xf7537e82, 0xbd3af235, 0x2ad7d2bb, 0xeb86d391]

/-- 32-bit left rotation. -/
def md5rotl (x s : Nat) : Nat :=
  ((x <<< s) ||| (x >>> (32 - s))) &&& 0xffffffff

/-- Bitwise complement within 32 bits. -/
def md5not (x : Nat) : Nat := x ^^^ 0xffffffff

/-- The `count` low bytes of a value, little endian. -/
def leBytes (n count : Nat) : List Nat :=
  (List.range count).map fun i => (n >>> (8 * i)) &&& 255

/-- Little-endian 32-bit word `g` of one 64-byte block. -/
def md5word (block : List Nat) (g : Nat) : Nat :=
  block.getD (4 * g) 0 + 256 * block.getD (4 * g + 1) 0 +
    65536 * block.getD (4 * g + 2) 0 + 16777216 * block.getD (4 * g + 3) 0

/-- One of the 64 MD5 operations. -/
def md5round (block : List Nat) (st : Nat × Nat × Nat × Nat) (i : Nat) :
    Nat × Nat × Nat × Nat :=
  let A := st.1
  let B := st.2.1
  let C := st.2.2.1
  let D := st.2.2.2
  let F :=
    if i < 16 then (B &&& C) ||| (md5not B &&& D)
    else if i < 32 then (D &&& B) ||| (md5not D &&& C)
    else if i < 48 then B ^^^ C ^^^ D
    else C ^^^ (B ||| md5not D)
  let g :=
    if i < 16 then i
    else if i < 32 then (5 * i + 1) % 16
    else if i < 48 then (3 * i + 5) % 16
    else (7 * i) % 16
  let F2 := (F + A + MD5_K.getD i 0 + md5word block g) % 4294967296
  (D, (B + md5rotl F2 (MD5_S.getD i 0)) % 4294967296, B, C)

/-- Process one 64-byte block. -/
def md5block (st : Nat × Nat × Nat × Nat) (block : List Nat) :
    Nat × Nat × Nat × Nat :=
  let r := (List.range 64).foldl (md5round block) st
  ((st.1 + r.1) % 4294967296, (st.2.1 + r.2.1) % 4294967296,
   (st.2.2.1 + r.2.2.1) % 4294967296, (st.2.2.2 + r.2.2.2) % 4294967296)

/-- Process the padded message 64 bytes at a time; the fuel only
forces termination and any fuel at or above the byte count is
enough. -/
def md5blocksAux : Nat → (Nat × Nat × Nat × Nat) → List Nat → Nat × Nat × Nat × Nat
  | 0, st, _ => st
  | fuel + 1, st, bytes =>
    if bytes = [] then st
    else md5blocksAux fuel (md5block st (bytes.take 64)) (bytes.drop 64)

/-- MD5 padding: a `0x80` byte, zeros to 56 modulo 64, then the bit
length as eight little-endian bytes. -/
def md5pad (msg : List Nat) : List Nat :=
  let len := msg.length
  let zeros := (56 + 64 - (len + 1) % 64) % 64
  msg ++ 0x80 :: List.replicate zeros 0 ++ leBytes (len * 8) 8

/-- The MD5 digest of a byte string. -/
def md5 (msg : List Nat) : List Nat :=
  let padded := md5pad msg
  let r := md5blocksAux padded.length
    (0x67452301, 0xefcdab89, 0x98badcfe, 0x10325476) padded
  leBytes r.1 4 ++ leBytes r.2.1 4 ++ leBytes r.2.2.1 4 ++ leBytes r.2.2.2 4

/-- RFC 4122 version-3 UUID: the MD5 of namespace and name with the
version nibble forced to 3 and the variant bits to `10`. -/
def uuidV3 (ns name : List Nat) : List Nat :=
  let hs := md5 (ns ++ name)
  (hs.set 6 ((hs.getD 6 0 &&& 0x0f) ||| 0x30)).set 8
    ((hs.getD 8 0 &&& 0x3f) ||| 0x80)

/-- The Teeworlds namespace UUID
"e05ddaaa-c4e6-4cfb-b642-5d48e80c0029" from the `correct_uuid` test in
`format/mod.rs`. -/
def UUID_TEEWORLDS : List Nat :=
  [0xe0, 0x5d, 0xda, 0xaa, 0xc4, 0xe6, 0x4c, 0xfb,
   0xb6, 0x42, 0x5d, 0x48, 0xe8, 0x0c, 0x00, 0x29]

/-- The bytes of the namespaced name "teehistorian@ddnet.tw" from the
`correct_uuid` test in `format/mod.rs`. -/
def TEEHISTORIAN_NAME : List Nat :=
  [116, 101, 101, 104, 105, 115, 116, 111, 114, 105, 97, 110,
   64, 100, 100, 110, 101, 116, 46, 116, 119]

/-! ### Theorems -/

/-- A mapped `Except` value is `ok` exactly when the original is. -/
theorem except_map_ok {ε α β : Type _} {f : α → β} {x : Except ε α} {y : β}
    (h : x.map f = .ok y) : ∃ a, x = .ok a ∧ y = f a := by
  cases x with
  | error e => simp [Except.map] at h
  | ok a =>
    refine ⟨a, rfl, ?_⟩
    simpa [Except.map] using h.symm

/-- C7: `read_magic` consumes exactly 16 bytes and succeeds if and only
if they equal the fixed identifier `UUID` (otherwise `WrongMagic`); an
input equal to the identifier with any single byte altered fails with
`WrongMagic`; fewer than 16 available bytes fail with the unpacking
layer's unexpected-end signal; the only effect is advancing the cursor
past the 16 consumed bytes. -/
theorem read_magic_spec :
    (∀ (l rest : List Nat), l.length = 16 →
      read_magic ⟨l ++ rest⟩ = if l = UUID then .ok ⟨rest⟩ else .error (.Err .mk)) ∧
    (∀ (i b : Nat) (rest : List Nat), i < 16 → b ≠ UUID.getD i 0 →
      read_magic ⟨UUID.set i b ++ rest⟩ = .error (.Err .mk)) ∧
    (∀ p : Unpacker, p.data.length < 16 → read_magic p = .error .UnexpectedEnd) := by
  have huuid : UUID.length = 16 := by decide
  have base : ∀ (l rest : List Nat), l.length = 16 →
      read_magic ⟨l ++ rest⟩ = if l = UUID then .ok ⟨rest⟩ else .error (.Err .mk) := by
    intro l rest hl
    have hlen : MAGIC_LEN ≤ (l ++ rest).length := by
      simp [MAGIC_LEN, List.length_append, hl]
    have htake : (l ++ rest).take 16 = l := by
      rw [← hl]; exact List.take_left l rest
    have hdrop : (l ++ rest).drop 16 = rest := by
      rw [← hl]; exact List.drop_left l rest
    have h16 : 16 ≤ l.length + rest.length := by omega
    simp only [read_magic, Unpacker.read_raw, MAGIC_LEN, hlen, if_pos, htake, hdrop]
    by_cases h : l = UUID
    · subst h; simp [h16]
    · simp [h16, h]
  refine ⟨base, ?_, ?_⟩
  · intro i b rest hi hb
    have hset : (UUID.set i b).length = 16 := by simp [huuid]
    rw [base _ rest hset]
    have hne : UUID.set i b ≠ UUID := by
      intro h
      apply hb
      have hi' : i < (UUID.set i b).length := by omega
      have : (UUID.set i b).getD i 0 = b := by
        rw [List.getD_eq_getElem?_getD, List.getElem?_eq_getElem hi',
          List.getElem_set_self (h := by omega)]
        rfl
      rw [h] at this
      exact this.symm
    simp [hne]
  · intro p hp
    have : ¬ (MAGIC_LEN ≤ p.data.length) := by simp [MAGIC_LEN]; omega
    simp [read_magic, Unpacker.read_raw, this]

/-- Witness for C7: the identifier followed by one byte is accepted
with the cursor advanced exactly past it. -/
theorem read_magic_spec_witness :
    read_magic ⟨UUID ++ [7]⟩ = .ok ⟨[7]⟩ := by
  rw [read_magic_spec.1 UUID [7] (by decide)]
  exact if_pos rfl

/-- C2: decoding a sequence of non-negative tick-advance keys whose
running sum stays within `i32::MAX` increments the tick counter by
exactly the sum; a sequence whose running sum crosses `i32::MAX` fails
with `TickOverflow` exactly at the first record whose addition crosses
the boundary — every earlier prefix still fits — and not at any
earlier record. -/
theorem tick_advance_sum :
    ∀ (ks : List Int) (t : Int), (∀ k ∈ ks, 0 ≤ k) → t ≤ INT32_MAX →
    (t + ks.sum ≤ INT32_MAX → runTicks t ks = .ok (t + ks.sum)) ∧
    (INT32_MAX < t + ks.sum → ∃ i, i < ks.length ∧
      runTicks t ks = .error (i, .TickOverflow) ∧
      t + ((ks.take i).sum) ≤ INT32_MAX ∧ INT32_MAX < t + ((ks.take (i + 1)).sum)) := by
  intro ks
  induction ks with
  | nil =>
    intro t _ ht
    refine ⟨fun _ => by simp [runTicks], fun h => absurd ht (by simp at h; omega)⟩
  | cons d ds ih =>
    intro t hk ht
    have hd : 0 ≤ d := hk d (by simp)
    have hds : ∀ k ∈ ds, 0 ≤ k := fun k hkk => hk k (by simp [hkk])
    have hsum : 0 ≤ ds.sum := List.sum_nonneg hds
    by_cases hover : INT32_MAX < t + d
    · have hrun : runTicks t (d :: ds) = .error (0, .TickOverflow) := by
        simp [runTicks, advanceTick, hover]
      constructor
      · intro hle
        exfalso
        simp only [List.sum_cons] at hle
        omega
      · intro _
        exact ⟨0, by simp, hrun, by simpa using ht, by simp; omega⟩
    · have hle : t + d ≤ INT32_MAX := by omega
      have hrun : runTicks t (d :: ds) =
          match runTicks (t + d) ds with
          | .error (i, e) => .error (i + 1, e)
          | .ok tf => .ok tf := by
        simp [runTicks, advanceTick, hover]
      obtain ⟨ih1, ih2⟩ := ih (t + d) hds hle
      constructor
      · intro hfit
        simp only [List.sum_cons] at hfit
        have : t + d + ds.sum ≤ INT32_MAX := by omega
        rw [hrun, ih1 this]
        simp only [List.sum_cons]
        congr 1
        omega
      · intro hcross
        simp only [List.sum_cons] at hcross
        obtain ⟨i, hilen, heq, hpre, hpost⟩ := ih2 (by omega)
        refine ⟨i + 1, by simpa using hilen, ?_, ?_, ?_⟩
        · rw [hrun, heq]
        · simp only [List.take_succ_cons, List.sum_cons]
          omega
        · simp only [List.take_succ_cons, List.sum_cons]
          omega

/-- Witness for C2: a concrete in-range sequence sums exactly. -/
theorem tick_advance_sum_witness :
    runTicks 0 [5, 7] = .ok 12 := by
  have := (tick_advance_sum [5, 7] 0 (by decide) (by decide)).1 (by decide)
  simpa using this

/-- C1: for every client id `c` with `0 ≤ c < MAX_CLIENTS` the
per-client player and input states evolve exactly by the transition
table — `PlayerNew` moves `Absent` to `Present` and duplicates fail
with `PlayerNewDuplicate`; `PlayerDiff` keeps `Present` and fails with
`PlayerDiffWithoutNew` on `Absent`; `PlayerOld` moves `Present` to
`Absent` and fails with `PlayerOldWithoutNew` on `Absent`; `InputNew`
moves `Inactive` to `Active` and duplicates fail with
`InputNewDuplicate`; `InputDiff` keeps `Active` and fails with
`InputDiffWithoutNew` on `Inactive` — both states start
`Absent`/`Inactive`, a transition touches no other slot, and the
decoder mutates the table only through these transitions. -/
theorem state_machine_transitions :
    (∀ c : Nat, c < MAX_CLIENTS → initTable.getD c freshClient = ⟨.Absent, .Inactive⟩) ∧
    (∀ (tbl : List ClientSt) (c : Nat) (cl : ClientSt) (payload : List Int),
      c < MAX_CLIENTS → tbl.getD c freshClient = cl →
      (cl.player = .Absent → applyItem tbl c .PlayerNew payload =
        .ok (tbl.set c { cl with player := .Present (payload.getD 0 0) (payload.getD 1 0) })) ∧
      (∀ x y, cl.player = .Present x y →
        applyItem tbl c .PlayerNew payload = .error .PlayerNewDuplicate) ∧
      (∀ x y, cl.player = .Present x y → applyItem tbl c .PlayerDiff payload =
        .ok (tbl.set c
          { cl with player := .Present (x + payload.getD 0 0) (y + payload.getD 1 0) })) ∧
      (cl.player = .Absent →
        applyItem tbl c .PlayerDiff payload = .error .PlayerDiffWithoutNew) ∧
      (∀ x y, cl.player = .Present x y → applyItem tbl c .PlayerOld payload =
        .ok (tbl.set c { cl with player := .Absent })) ∧
      (cl.player = .Absent →
        applyItem tbl c .PlayerOld payload = .error .PlayerOldWithoutNew) ∧
      (cl.input = .Inactive → applyItem tbl c .InputNew payload =
        .ok (tbl.set c { cl with input := .Active payload })) ∧
      (∀ xs, cl.input = .Active xs →
        applyItem tbl c .InputNew payload = .error .InputNewDuplicate) ∧
      (∀ xs, cl.input = .Active xs → applyItem tbl c .InputDiff payload =
        .ok (tbl.set c { cl with input := .Active (List.zipWith (· + ·) xs payload) })) ∧
      (cl.input = .Inactive →
        applyItem tbl c .InputDiff payload = .error .InputDiffWithoutNew)) ∧
    (∀ (tbl : List ClientSt) (c : Nat) (kind : ItemKind) (payload : List Int)
        (tbl' : List ClientSt), applyItem tbl c kind payload = .ok tbl' →
      ∀ c' : Nat, c' ≠ c → tbl'.getD c' freshClient = tbl.getD c' freshClient) ∧
    (∀ (st : DecodeState) (r : Except Error (Option Event)) (st' : DecodeState),
      decode_next st = (r, st') →
      st'.table = st.table ∨ ∃ (cid : Nat) (kind : ItemKind) (xs : List Int),
        cid < MAX_CLIENTS ∧ applyItem st.table cid kind xs = .ok st'.table) := by
  refine ⟨?_, ?_, ?_, ?_⟩
  · intro c hc
    have hsome : initTable[c]? = some freshClient := by
      rw [show initTable = List.replicate MAX_CLIENTS freshClient from rfl,
        List.getElem?_replicate]
      simp [hc]
    rw [List.getD_eq_getElem?_getD, hsome]
    rfl
  · intro tbl c cl payload hc hcl
    have hcore : ∀ kind, applyItem tbl (c : Nat) kind payload = applyItemCore tbl c kind payload := by
      intro kind
      unfold applyItem
      rw [if_neg, Int.toNat_natCast]
      push_neg
      exact ⟨Int.natCast_nonneg c, by exact_mod_cast hc⟩
    refine ⟨?_, ?_, ?_, ?_, ?_, ?_, ?_, ?_, ?_, ?_⟩ <;>
      first
        | (intro h
           rw [hcore]
           simp only [applyItemCore]
           rw [hcl, h]
           simp [applyPlayerNew, applyPlayerDiff, applyPlayerOld, applyInputNew,
             applyInputDiff, Except.map])
        | (intro x y h
           rw [hcore]
           simp only [applyItemCore]
           rw [hcl, h]
           simp [applyPlayerNew, applyPlayerDiff, applyPlayerOld, applyInputNew,
             applyInputDiff, Except.map])
        | (intro xs h
           rw [hcore]
           simp only [applyItemCore]
           rw [hcl, h]
           simp [applyPlayerNew, applyPlayerDiff, applyPlayerOld, applyInputNew,
             applyInputDiff, Except.map])
  · intro tbl c kind payload tbl' happ c' hne
    unfold applyItem at happ
    split at happ
    · exact absurd happ (by simp)
    · unfold applyItemCore at happ
      cases kind <;>
        (obtain ⟨s, -, rfl⟩ := except_map_ok happ
         have hx : ((c : Nat) : Int).toNat ≠ c' := by
           rw [Int.toNat_natCast]; omega
         simp only [List.getD_eq_getElem?_getD, List.getElem?_set_ne hx])
  · intro st r st' h
    unfold decode_next at h
    split at h
    · injection h with h1 h2; subst h2; left; rfl
    · split at h
      · injection h with h1 h2; subst h2; left; rfl
      · split at h
        · split at h <;> (injection h with h1 h2; subst h2; left; rfl)
        · rename_i kind cid hkey
          split at h
          · injection h with h1 h2; subst h2; left; rfl
          · rename_i hcid
            split at h
            · injection h with h1 h2; subst h2; left; rfl
            · rename_i xs up2 hread
              split at h
              · injection h with h1 h2; subst h2; left; rfl
              · rename_i tblN happ
                injection h with h1 h2; subst h2
                right
                exact ⟨cid, kind, xs, by omega, happ⟩

/-- Witness for C1: `PlayerNew` for client 0 on the initial table
stores the snapshot and marks the client `Present`. -/
theorem state_machine_transitions_witness :
    applyItem initTable 0 .PlayerNew [1, 2] =
      .ok (initTable.set 0 ⟨.Present 1 2, .Inactive⟩) := by
  have h := ((state_machine_transitions.2.1 initTable 0 freshClient [1, 2]
    (by decide) (by decide)).1 (by decide))
  simpa using h

/-- The base-128 worker decodes its own encoding when the fuel covers
the value. -/
theorem readVarNat_encodeAux :
    ∀ (fuel n : Nat) (rest : List Nat), n ≤ fuel →
      Unpacker.readVarNat (encodeVarNatAux fuel n ++ rest) = some (n, rest) := by
  intro fuel
  induction fuel with
  | zero =>
    intro n rest hn
    have h0 : n = 0 := by omega
    subst h0
    simp [encodeVarNatAux, Unpacker.readVarNat]
  | succ fuel ih =>
    intro n rest hn
    by_cases h : n < 128
    · simp [encodeVarNatAux, h, Unpacker.readVarNat]
    · have hdiv : n / 128 ≤ fuel := by
        have h1 : n / 128 < n := Nat.div_lt_self (by omega) (by omega)
        omega
      have hrec := ih (n / 128) rest hdiv
      rw [show encodeVarNatAux (fuel + 1) n =
          (n % 128 + 128) :: encodeVarNatAux fuel (n / 128) from by
        rw [encodeVarNatAux, if_neg h]]
      rw [List.cons_append]
      unfold Unpacker.readVarNat
      rw [if_neg (by omega), hrec]
      dsimp only
      have harith : n % 128 + 128 - 128 + 128 * (n / 128) = n := by omega
      rw [harith]

/-- `readVarNat` decodes `encodeVarNat`. -/
theorem readVarNat_encode (n : Nat) (rest : List Nat) :
    Unpacker.readVarNat (encodeVarNat n ++ rest) = some (n, rest) :=
  readVarNat_encodeAux n n rest le_rfl

/-- `read_int` decodes `encodeInt`. -/
theorem read_int_encode (k : Int) (rest : List Nat) :
    Unpacker.read_int ⟨encodeInt k ++ rest⟩ = some (k, ⟨rest⟩) := by
  unfold Unpacker.read_int encodeInt
  rw [readVarNat_encode]
  dsimp only
  by_cases h : 0 ≤ k
  · have hz : zigzag k = 2 * k.toNat := by simp [zigzag, h]
    rw [hz]
    rw [if_pos (by omega)]
    congr 2
    omega
  · have hk1 : 1 ≤ (-k).toNat := by omega
    have hz : zigzag k = 2 * (-k).toNat - 1 := by simp [zigzag, h]
    rw [hz]
    rw [if_neg (by omega)]
    congr 2
    omega

/-- `read_string` decodes `encodeString`. -/
theorem read_string_encode (s rest : List Nat) :
    Unpacker.read_string ⟨encodeString s ++ rest⟩ = some (s, ⟨rest⟩) := by
  unfold Unpacker.read_string encodeString
  rw [List.append_assoc, readVarNat_encode]
  dsimp only
  unfold Unpacker.read_raw
  dsimp only
  rw [if_pos (by simp)]
  rw [List.take_left, List.drop_left]

/-- The worker's encoding is never empty. -/
theorem encodeVarNatAux_ne_nil (fuel n : Nat) : encodeVarNatAux fuel n ≠ [] := by
  cases fuel with
  | zero => simp [encodeVarNatAux]
  | succ fuel =>
    unfold encodeVarNatAux
    split <;> simp

/-- `decodeKey` recovers every encoded item key; the split into kind
and client id is unambiguous. -/
theorem decodeKey_keyOf_item (kind : ItemKind) (cid : Nat) :
    decodeKey (keyOf (.Item kind cid)) = .Item kind cid := by
  have htag : tagOfKind kind < 5 := by cases kind <;> simp [tagOfKind]
  unfold decodeKey keyOf
  dsimp only
  rw [if_neg (by omega)]
  have hm : (-(-(((5 * cid + tagOfKind kind : Nat) : Int) + 1)) - 1).toNat =
      5 * cid + tagOfKind kind := by omega
  rw [hm]
  have h5 : (5 * cid + tagOfKind kind) % 5 = tagOfKind kind := by omega
  have h5' : (5 * cid + tagOfKind kind) / 5 = cid := by omega
  rw [h5, h5']
  cases kind <;> simp [tagOfKind, kindOfTag]

/-- C3: a typed item addressed to an out-of-range client id — negative
or at least `MAX_CLIENTS` — fails with `InvalidClientId` with no state
mutation: the transition function rejects it before any table update,
and `decode_next` on such an item leaves the tick and the whole State
Table unchanged, having read no payload. -/
theorem invalid_client_id :
    (∀ (tbl : List ClientSt) (cid : Int) (kind : ItemKind) (payload : List Int),
      cid < 0 ∨ (MAX_CLIENTS : Int) ≤ cid →
      applyItem tbl cid kind payload = .error .InvalidClientId) ∧
    (∀ (st : DecodeState) (kind : ItemKind) (cid : Nat) (tail : List Nat),
      MAX_CLIENTS ≤ cid →
      st.up.data = encodeInt (keyOf (.Item kind cid)) ++ tail →
      decode_next st = (.error .InvalidClientId, { st with up := ⟨tail⟩ }) ∧
      ({ st with up := ⟨tail⟩ } : DecodeState).table = st.table ∧
      ({ st with up := ⟨tail⟩ } : DecodeState).tick = st.tick) := by
  constructor
  · intro tbl cid kind payload hcid
    unfold applyItem
    rw [if_pos hcid]
  · intro st kind cid tail hcid hdata
    have hup : st.up = ⟨encodeInt (keyOf (.Item kind cid)) ++ tail⟩ := by
      rw [← hdata]
    have hne : st.up.data ≠ [] := by
      rw [hdata]
      intro h
      exact encodeVarNatAux_ne_nil _ _ (List.append_eq_nil.mp h).1
    refine ⟨?_, rfl, rfl⟩
    unfold decode_next
    rw [if_neg hne, hup, read_int_encode]
    dsimp only
    rw [decodeKey_keyOf_item]
    dsimp only
    rw [if_pos hcid]

/-- Witness for C3: client id 64 is rejected on the initial table. -/
theorem invalid_client_id_witness :
    applyItem initTable 64 .PlayerNew [1, 2] = .error .InvalidClientId :=
  invalid_client_id.1 initTable 64 .PlayerNew [1, 2] (by decide)

/-- C4: exhaustion exactly at a record boundary — no bytes at all when
`decode_next` would read a new key — is the clean end of stream (`ok
none`, nothing changed), while starvation mid-record (a partial key, or
a payload cut short after a valid key) is the `UnexpectedEnd` error,
with no partial snapshot update committed: the State Table and tick are
unchanged. -/
theorem end_of_stream_vs_truncation :
    (∀ st : DecodeState, st.up.data = [] → decode_next st = (.ok none, st)) ∧
    (∀ st : DecodeState, st.up.data ≠ [] → st.up.read_int = none →
      decode_next st = (.error .UnexpectedEnd, st)) ∧
    (∀ (st : DecodeState) (kind : ItemKind) (cid : Nat) (tail : List Nat),
      cid < MAX_CLIENTS →
      st.up.data = encodeInt (keyOf (.Item kind cid)) ++ tail →
      readInts (payloadLen kind) ⟨tail⟩ = none →
      decode_next st = (.error .UnexpectedEnd, { st with up := ⟨tail⟩ }) ∧
      ({ st with up := ⟨tail⟩ } : DecodeState).table = st.table ∧
      ({ st with up := ⟨tail⟩ } : DecodeState).tick = st.tick) := by
  refine ⟨?_, ?_, ?_⟩
  · intro st h
    unfold decode_next
    rw [if_pos h]
  · intro st hne hread
    unfold decode_next
    rw [if_neg hne, hread]
  · intro st kind cid tail hcid hdata hpay
    have hup : st.up = ⟨encodeInt (keyOf (.Item kind cid)) ++ tail⟩ := by
      rw [← hdata]
    have hne : st.up.data ≠ [] := by
      rw [hdata]
      intro h
      exact encodeVarNatAux_ne_nil _ _ (List.append_eq_nil.mp h).1
    refine ⟨?_, rfl, rfl⟩
    unfold decode_next
    rw [if_neg hne, hup, read_int_encode]
    dsimp only
    rw [decodeKey_keyOf_item]
    dsimp only
    rw [if_neg (by omega), hpay]

/-- Witness for C4: a `PlayerNew` key whose two-field payload is cut
short after one field fails with `UnexpectedEnd` and leaves the table
untouched. -/
theorem end_of_stream_vs_truncation_witness :
    decode_next ⟨⟨encodeInt (keyOf (.Item .PlayerNew 0)) ++ encodeInt 1⟩, 0, initTable⟩ =
      (.error .UnexpectedEnd, ⟨⟨encodeInt 1⟩, 0, initTable⟩) := by
  have h := (end_of_stream_vs_truncation.2.2
    ⟨⟨encodeInt (keyOf (.Item .PlayerNew 0)) ++ encodeInt 1⟩, 0, initTable⟩
    .PlayerNew 0 (encodeInt 1) (by decide) rfl (by decide)).1
  simpa using h

/-- C5: `read_header` fails with exactly one of `UnexpectedEnd` (the
length-prefixed payload cannot be fully read — including a payload
truncated mid-text-field, which never yields a field-specific error),
`MalformedJson` (syntax error), `MalformedHeader` (missing or mistyped
required field), `MalformedVersion`/`MalformedMapSize`/`MalformedMapCrc`
(the respective text field fails its numeric parse), and succeeds in
all other cases. -/
theorem read_header_error_taxonomy :
    (∀ p : Unpacker,
      (Unpacker.read_string p = none → read_header p = .error .UnexpectedEnd) ∧
      (∀ pl p', Unpacker.read_string p = some (pl, p') →
        (jsonParse pl = none → read_header p = .error (.Err .MalformedJson)) ∧
        (∀ v, jsonParse pl = some v →
          (extractHeader v = none → read_header p = .error (.Err .MalformedHeader)) ∧
          (∀ jh, extractHeader v = some jh →
            (parse_i32 jh.version = none →
              read_header p = .error (.Err .MalformedVersion)) ∧
            (∀ ver, parse_i32 jh.version = some ver →
              (parse_u32 jh.map_size = none →
                read_header p = .error (.Err .MalformedMapSize)) ∧
              (∀ sz, parse_u32 jh.map_size = some sz →
                (parseHex_u32 jh.map_crc = none →
                  read_header p = .error (.Err .MalformedMapCrc)) ∧
                (∀ crc, parseHex_u32 jh.map_crc = some crc →
                  read_header p = .ok (⟨ver, jh.map_name, sz, crc⟩, p')))))))) ∧
    (∀ p : Unpacker, (∃ h p', read_header p = .ok (h, p')) ∨
      read_header p = .error .UnexpectedEnd ∨
      read_header p = .error (.Err .MalformedJson) ∨
      read_header p = .error (.Err .MalformedHeader) ∨
      read_header p = .error (.Err .MalformedVersion) ∨
      read_header p = .error (.Err .MalformedMapSize) ∨
      read_header p = .error (.Err .MalformedMapCrc)) := by
  constructor
  · intro p
    refine ⟨fun h => by simp [read_header, h], ?_⟩
    intro pl p' hs
    refine ⟨fun hj => by simp [read_header, hs, hj], ?_⟩
    intro v hv
    refine ⟨fun he => by simp [read_header, hs, hv, headerOfJson, he], ?_⟩
    intro jh he
    refine ⟨fun h1 => by simp [read_header, hs, hv, headerOfJson, he, h1], ?_⟩
    intro ver h1
    refine ⟨fun h2 => by simp [read_header, hs, hv, headerOfJson, he, h1, h2], ?_⟩
    intro sz h2
    refine ⟨fun h3 => by simp [read_header, hs, hv, headerOfJson, he, h1, h2, h3], ?_⟩
    intro crc h3
    simp [read_header, hs, hv, headerOfJson, he, h1, h2, h3]
  · intro p
    cases hs : Unpacker.read_string p with
    | none => exact .inr (.inl (by simp [read_header, hs]))
    | some x =>
      obtain ⟨pl, p'⟩ := x
      cases hv : jsonParse pl with
      | none => exact .inr (.inr (.inl (by simp [read_header, hs, hv])))
      | some v =>
        cases he : extractHeader v with
        | none =>
          exact .inr (.inr (.inr (.inl (by
            simp [read_header, hs, hv, headerOfJson, he]))))
        | some jh =>
          cases h1 : parse_i32 jh.version with
          | none =>
            exact .inr (.inr (.inr (.inr (.inl (by
              simp [read_header, hs, hv, headerOfJson, he, h1])))))
          | some ver =>
            cases h2 : parse_u32 jh.map_size with
            | none =>
              exact .inr (.inr (.inr (.inr (.inr (.inl (by
                simp [read_header, hs, hv, headerOfJson, he, h1, h2]))))))
            | some sz =>
              cases h3 : parseHex_u32 jh.map_crc with
              | none =>
                exact .inr (.inr (.inr (.inr (.inr (.inr (by
                  simp [read_header, hs, hv, headerOfJson, he, h1, h2, h3]))))))
              | some crc =>
                exact .inl ⟨⟨ver, jh.map_name, sz, crc⟩, p', by
                  simp [read_header, hs, hv, headerOfJson, he, h1, h2, h3]⟩

/-- Witness for C5: a length prefix of 50 over a 1-byte remainder is a
payload truncated mid-field and is reported as `UnexpectedEnd`. -/
theorem read_header_error_taxonomy_witness :
    read_header ⟨[50, 123]⟩ = .error .UnexpectedEnd :=
  (read_header_error_taxonomy.1 ⟨[50, 123]⟩).1 (by rfl)

/-- C6: after the structural parse and field extraction succeed, the
numeric field checks short-circuit in declaration order — version, then
map_name (never a numeric failure), then map_size, then map_crc — so
with several malformed fields the earliest one's error is reported; and
a returned `Header` is never partial: every success is fully determined
by one successful parse of each field. -/
theorem read_header_field_order :
    (∀ (p : Unpacker) (pl : List Nat) (p' : Unpacker) (v : JVal) (jh : JsonHeader),
      Unpacker.read_string p = some (pl, p') → jsonParse pl = some v →
      extractHeader v = some jh →
      read_header p =
        match parse_i32 jh.version with
        | none => .error (.Err .MalformedVersion)
        | some ver =>
          match parse_u32 jh.map_size with
          | none => .error (.Err .MalformedMapSize)
          | some sz =>
            match parseHex_u32 jh.map_crc with
            | none => .error (.Err .MalformedMapCrc)
            | some crc => .ok (⟨ver, jh.map_name, sz, crc⟩, p')) ∧
    (∀ (p p' : Unpacker) (h : Header), read_header p = .ok (h, p') →
      ∃ (pl : List Nat) (v : JVal) (jh : JsonHeader),
        Unpacker.read_string p = some (pl, p') ∧ jsonParse pl = some v ∧
        extractHeader v = some jh ∧
        parse_i32 jh.version = some h.version ∧ jh.map_name = h.map_name ∧
        parse_u32 jh.map_size = some h.map_size ∧
        parseHex_u32 jh.map_crc = some h.map_crc) := by
  constructor
  · intro p pl p' v jh hs hv he
    simp only [read_header, hs, hv, headerOfJson, he]
    cases parse_i32 jh.version with
    | none => rfl
    | some ver =>
      cases parse_u32 jh.map_size with
      | none => rfl
      | some sz =>
        cases parseHex_u32 jh.map_crc with
        | none => rfl
        | some crc => rfl
  · intro p p' h hok
    unfold read_header at hok
    split at hok
    · cases hok
    · rename_i pl p0 hs
      split at hok
      · cases hok
      · rename_i v hv
        split at hok
        · cases hok
        · rename_i h0 hh
          unfold headerOfJson at hh
          split at hh
          · cases hh
          · rename_i jh he
            split at hh
            · cases hh
            · rename_i ver h1
              split at hh
              · cases hh
              · rename_i sz h2
                split at hh
                · cases hh
                · rename_i crc h3
                  cases hh
                  cases hok
                  exact ⟨pl, v, jh, hs, hv, he, h1, rfl, h2, h3⟩

/-- Witness for C6: with a malformed version and a malformed map_crc,
the earlier field wins: `MalformedVersion` is reported. -/
theorem read_header_field_order_witness :
    read_header ⟨59 :: [123, 34, 118, 101, 114, 115, 105, 111, 110, 34, 58, 34, 120, 34, 44, 34, 109, 97, 112, 95, 110, 97, 109, 101, 34, 58, 34, 97, 34, 44, 34, 109, 97, 112, 95, 115, 105, 122, 101, 34, 58, 34, 48, 34, 44, 34, 109, 97, 112, 95, 99, 114, 99, 34, 58, 34, 122, 34, 125]⟩ =
      .error (.Err .MalformedVersion) := by
  rw [read_header_field_order.1 _
    [123, 34, 118, 101, 114, 115, 105, 111, 110, 34, 58, 34, 120, 34, 44, 34, 109, 97, 112, 95, 110, 97, 109, 101, 34, 58, 34, 97, 34, 44, 34, 109, 97, 112, 95, 115, 105, 122, 101, 34, 58, 34, 48, 34, 44, 34, 109, 97, 112, 95, 99, 114, 99, 34, 58, 34, 122, 34, 125]
    ⟨[]⟩ (.jobj [(keyVersion, .jstr [120]), (keyMapName, .jstr [97]),
      (keyMapSize, .jstr [48]), (keyMapCrc, .jstr [122])])
    ⟨[120], [97], [48], [122]⟩ (by rfl) (by rfl) (by rfl)]
  rfl

set_option maxHeartbeats 1600000 in
/-- Gathering header fields ignores members with unknown keys: only
the required-key members matter. -/
theorem gatherFields_filter :
    ∀ (ms : List (List Nat × JVal)) (acc : PartialHeader),
      gatherFields ms acc = gatherFields (ms.filter fun m => isRequiredKey m.1) acc := by
  intro ms
  induction ms with
  | nil => intro acc; rfl
  | cons m ms ih =>
    intro acc
    obtain ⟨k, v⟩ := m
    obtain ⟨av, an, asz, acr⟩ := acc
    by_cases hreq : isRequiredKey k = true
    · have hfilter : (((k, v) :: ms).filter fun m => isRequiredKey m.1) =
          (k, v) :: (ms.filter fun m => isRequiredKey m.1) := by
        simp [List.filter_cons, hreq]
      rw [hfilter]
      simp only [gatherFields]
      by_cases h1 : k = keyVersion
      · simp only [if_pos h1]
        cases av <;> cases v <;> simp [ih]
      · simp only [if_neg h1]
        by_cases h2 : k = keyMapName
        · simp only [if_pos h2]
          cases an <;> cases v <;> simp [ih]
        · simp only [if_neg h2]
          by_cases h3 : k = keyMapSize
          · simp only [if_pos h3]
            cases asz <;> cases v <;> simp [ih]
          · simp only [if_neg h3]
            by_cases h4 : k = keyMapCrc
            · simp only [if_pos h4]
              cases acr <;> cases v <;> simp [ih]
            · exfalso
              simp [isRequiredKey, h1, h2, h3, h4] at hreq
    · have hfilter : (((k, v) :: ms).filter fun m => isRequiredKey m.1) =
          ms.filter fun m => isRequiredKey m.1 := by
        simp [List.filter_cons, hreq]
      rw [hfilter]
      simp only [isRequiredKey, decide_eq_true_eq] at hreq
      push_neg at hreq
      obtain ⟨h1, h2, h3, h4⟩ := hreq
      simp only [gatherFields, if_neg h1, if_neg h2, if_neg h3, if_neg h4]
      exact ih _

/-- C10: a well-formed JSON header object with the four required text
fields plus any number of unknown extra fields deserializes exactly as
the object with only the four required fields — the extra fields are
ignored and never cause `MalformedHeader` — and `read_header`'s result
on any object payload is fully determined by its required-key
members. -/
theorem header_ignores_unknown_fields :
    (∀ ms : List (List Nat × JVal),
      extractHeader (.jobj ms) =
        extractHeader (.jobj (ms.filter fun m => isRequiredKey m.1))) ∧
    (∀ (vs ns ss cs : List Nat) (extras : List (List Nat × JVal)),
      (∀ m ∈ extras, isRequiredKey m.1 = false) →
      extractHeader (.jobj ([(keyVersion, .jstr vs), (keyMapName, .jstr ns),
        (keyMapSize, .jstr ss), (keyMapCrc, .jstr cs)] ++ extras)) =
        some ⟨vs, ns, ss, cs⟩) ∧
    (∀ (p : Unpacker) (pl : List Nat) (p' : Unpacker) (ms : List (List Nat × JVal)),
      Unpacker.read_string p = some (pl, p') → jsonParse pl = some (.jobj ms) →
      read_header p =
        match headerOfJson (.jobj (ms.filter fun m => isRequiredKey m.1)) with
        | .error e => .error (.Err e)
        | .ok h => .ok (h, p')) := by
  have hext : ∀ ms : List (List Nat × JVal),
      extractHeader (.jobj ms) =
        extractHeader (.jobj (ms.filter fun m => isRequiredKey m.1)) := by
    intro ms
    simp only [extractHeader]
    rw [gatherFields_filter]
  refine ⟨hext, ?_, ?_⟩
  · intro vs ns ss cs extras hex
    rw [hext]
    have hextras : extras.filter (fun m => isRequiredKey m.1) = [] :=
      List.filter_eq_nil_iff.mpr (fun m hm => by simp [hex m hm])
    rw [List.filter_append, hextras, List.append_nil]
    rfl
  · intro p pl p' ms hs hv
    have hjson : headerOfJson (.jobj ms) =
        headerOfJson (.jobj (ms.filter fun m => isRequiredKey m.1)) := by
      unfold headerOfJson
      rw [hext]
    simp only [read_header, hs, hv, hjson]

/-- Witness for C10: one extra field with key "x" and a number value
changes nothing. -/
theorem header_ignores_unknown_fields_witness :
    extractHeader (.jobj [(keyVersion, .jstr [49]), (keyMapName, .jstr [97]),
      (keyMapSize, .jstr [48]), (keyMapCrc, .jstr [48]), ([120], .jnum [49])]) =
      some ⟨[49], [97], [48], [48]⟩ := by
  have h := header_ignores_unknown_fields.2.1 [49] [97] [48] [48]
    [([120], JVal.jnum [49])] (by intro m hm; simp at hm; subst hm; rfl)
  simpa using h

/-- `hexDigitVal` inverts `hexDigitChar` on digit values. -/
theorem hexDigitVal_hexDigitChar (d : Nat) (hd : d < 16) :
    hexDigitVal (hexDigitChar d) = some d := by
  unfold hexDigitVal hexDigitChar
  by_cases h : d < 10
  · rw [if_pos h, if_pos (by omega)]
    congr 1
    omega
  · rw [if_neg h, if_neg (by omega), if_pos (by omega)]
    congr 1
    omega

/-- `digitVal` inverts the decimal digit byte map. -/
theorem digitVal_digitChar (d : Nat) (hd : d < 10) :
    digitVal (d + 48) = some d := by
  unfold digitVal
  rw [if_pos (by omega)]
  congr 1

/-- Accumulating digit bytes built from digit values folds the
values. -/
theorem digitsAcc_map (base : Nat) (dig : Nat → Option Nat) (chr : Nat → Nat)
    (hchr : ∀ d < base, dig (chr d) = some d) :
    ∀ (ds : List Nat) (a : Nat), (∀ d ∈ ds, d < base) →
      digitsAcc base dig (ds.map chr) a =
        some (ds.foldl (fun acc d => acc * base + d) a) := by
  intro ds
  induction ds with
  | nil => intro a _; rfl
  | cons d ds ih =>
    intro a hd
    have h1 : dig (chr d) = some d := hchr d (hd d (by simp))
    simp only [List.map_cons, digitsAcc, h1, List.foldl_cons]
    exact ih _ (fun x hx => hd x (by simp [hx]))

/-- Folding big-endian digit bytes equals `Nat.ofDigits` of the
little-endian digits. -/
theorem foldl_reverse_ofDigits (b : Nat) :
    ∀ (L : List Nat) (a : Nat),
      (L.reverse).foldl (fun acc d => acc * b + d) a =
        a * b ^ L.length + Nat.ofDigits b L := by
  intro L
  induction L with
  | nil => intro a; simp [Nat.ofDigits]
  | cons d L ih =>
    intro a
    simp only [List.reverse_cons, List.foldl_append, List.foldl_cons, List.foldl_nil,
      ih, Nat.ofDigits_cons, List.length_cons]
    ring

/-- Decimal text printed by `printNat` parses back to the same
value. -/
theorem parseNat_print (n : Nat) :
    parseNatRadix 10 digitVal (printNat n) = some n := by
  by_cases h : n = 0
  · subst h; rfl
  · rw [printNat, if_neg h]
    have hnil : (Nat.digits 10 n).reverse.map (fun d => d + 48) ≠ [] := by
      simp [Nat.digits_ne_nil_iff_ne_zero.mpr h]
    have h1 : parseNatRadix 10 digitVal ((Nat.digits 10 n).reverse.map (fun d => d + 48)) =
        digitsAcc 10 digitVal ((Nat.digits 10 n).reverse.map (fun d => d + 48)) 0 := by
      obtain ⟨hd, tl, heq⟩ := List.exists_cons_of_ne_nil hnil
      rw [heq]
      rfl
    rw [h1, digitsAcc_map 10 digitVal (fun d => d + 48)
      (fun d hd => digitVal_digitChar d hd) ((Nat.digits 10 n).reverse) 0
      (fun d hd => Nat.digits_lt_base (by norm_num) (List.mem_reverse.mp hd)),
      foldl_reverse_ofDigits 10 (Nat.digits 10 n) 0]
    simp [Nat.ofDigits_digits]

/-- Hexadecimal text printed by `printHexNat` parses back to the same
value. -/
theorem parseHexNat_print (n : Nat) :
    parseNatRadix 16 hexDigitVal (printHexNat n) = some n := by
  by_cases h : n = 0
  · subst h; rfl
  · rw [printHexNat, if_neg h]
    have hnil : (Nat.digits 16 n).reverse.map hexDigitChar ≠ [] := by
      simp [Nat.digits_ne_nil_iff_ne_zero.mpr h]
    have h1 : parseNatRadix 16 hexDigitVal ((Nat.digits 16 n).reverse.map hexDigitChar) =
        digitsAcc 16 hexDigitVal ((Nat.digits 16 n).reverse.map hexDigitChar) 0 := by
      obtain ⟨hd, tl, heq⟩ := List.exists_cons_of_ne_nil hnil
      rw [heq]
      rfl
    rw [h1, digitsAcc_map 16 hexDigitVal hexDigitChar
      (fun d hd => hexDigitVal_hexDigitChar d hd) ((Nat.digits 16 n).reverse) 0
      (fun d hd => Nat.digits_lt_base (by norm_num) (List.mem_reverse.mp hd)),
      foldl_reverse_ofDigits 16 (Nat.digits 16 n) 0]
    simp [Nat.ofDigits_digits]

/-- `printNat` output starts with a decimal digit byte. -/
theorem printNat_head (n : Nat) :
    ∃ hd tl, printNat n = hd :: tl ∧ 48 ≤ hd ∧ hd ≤ 57 := by
  by_cases h : n = 0
  · exact ⟨48, [], by subst h; rfl, by omega, by omega⟩
  · rw [printNat, if_neg h]
    have hnil : (Nat.digits 10 n).reverse ≠ [] := by
      simp [Nat.digits_ne_nil_iff_ne_zero.mpr h]
    obtain ⟨hd, tl, heq⟩ := List.exists_cons_of_ne_nil hnil
    have hmem : hd ∈ Nat.digits 10 n := by
      rw [← List.mem_reverse, heq]
      simp
    have hlt : hd < 10 := Nat.digits_lt_base (by norm_num) hmem
    exact ⟨hd + 48, tl.map (fun d => d + 48), by rw [heq]; simp, by omega, by omega⟩

/-- `printHexNat` output starts with a digit or lowercase letter byte,
never a sign. -/
theorem printHexNat_head (n : Nat) :
    ∃ hd tl, printHexNat n = hd :: tl ∧ 48 ≤ hd ∧ hd ≤ 102 := by
  by_cases h : n = 0
  · exact ⟨48, [], by subst h; rfl, by omega, by omega⟩
  · rw [printHexNat, if_neg h]
    have hnil : (Nat.digits 16 n).reverse ≠ [] := by
      simp [Nat.digits_ne_nil_iff_ne_zero.mpr h]
    obtain ⟨hd, tl, heq⟩ := List.exists_cons_of_ne_nil hnil
    have hmem : hd ∈ Nat.digits 16 n := by
      rw [← List.mem_reverse, heq]
      simp
    have hlt : hd < 16 := Nat.digits_lt_base (by norm_num) hmem
    refine ⟨hexDigitChar hd, tl.map hexDigitChar, by rw [heq]; simp, ?_, ?_⟩ <;>
      (unfold hexDigitChar; split <;> omega)

/-- Decimal text of a value below `2^32` parses back through
`parse_u32`. -/
theorem parse_u32_print (n : Nat) (hn : n < 4294967296) :
    parse_u32 (printNat n) = some n := by
  obtain ⟨hd, tl, heq, h1, h2⟩ := printNat_head n
  have hhead : ¬((printNat n).head? = some 43) := by
    rw [heq]
    simp
    omega
  simp only [parse_u32]
  rw [if_neg hhead, parseNat_print n]
  dsimp only
  rw [if_pos hn]

/-- Hexadecimal text of a value below `2^32` parses back through
`parseHex_u32`. -/
theorem parseHex_u32_print (n : Nat) (hn : n < 4294967296) :
    parseHex_u32 (printHexNat n) = some n := by
  obtain ⟨hd, tl, heq, h1, h2⟩ := printHexNat_head n
  have hhead : ¬((printHexNat n).head? = some 43) := by
    rw [heq]
    simp
    omega
  simp only [parseHex_u32]
  rw [if_neg hhead, parseHexNat_print n]
  dsimp only
  rw [if_pos hn]

/-- Decimal text of an `i32`-ranged value parses back through
`parse_i32`. -/
theorem parse_i32_print (v : Int) (hlo : -2147483648 ≤ v) (hhi : v ≤ 2147483647) :
    parse_i32 (printInt v) = some v := by
  by_cases hneg : v < 0
  · have hp : printInt v = 45 :: printNat (-v).toNat := by rw [printInt, if_pos hneg]
    simp only [parse_i32, hp]
    rw [if_pos (by simp)]
    simp only [List.tail_cons]
    rw [parseNat_print]
    dsimp only
    rw [if_pos (by omega)]
    congr 1
    omega
  · have hp : printInt v = printNat v.toNat := by rw [printInt, if_neg hneg]
    obtain ⟨hd, tl, heq, h1, h2⟩ := printNat_head v.toNat
    simp only [parse_i32, hp]
    rw [if_neg (by rw [heq]; simp; omega), if_neg (by rw [heq]; simp; omega),
      parseNat_print]
    dsimp only
    rw [if_pos (by omega)]
    congr 1
    omega

/-- Every byte of `printNat`'s output is a byte value. -/
theorem printNat_bytes (n : Nat) : ∀ b ∈ printNat n, b < 256 := by
  intro b hb
  rw [printNat] at hb
  split at hb
  · simp at hb
    omega
  · simp only [List.mem_map, List.mem_reverse] at hb
    obtain ⟨d, hd, rfl⟩ := hb
    have := Nat.digits_lt_base (by norm_num) hd
    omega

/-- Every byte of `printHexNat`'s output is a byte value. -/
theorem printHexNat_bytes (n : Nat) : ∀ b ∈ printHexNat n, b < 256 := by
  intro b hb
  rw [printHexNat] at hb
  split at hb
  · simp at hb
    omega
  · simp only [List.mem_map, List.mem_reverse] at hb
    obtain ⟨d, hd, rfl⟩ := hb
    have := Nat.digits_lt_base (by norm_num) hd
    unfold hexDigitChar
    split <;> omega

/-- Every byte of `printInt`'s output is a byte value. -/
theorem printInt_bytes (v : Int) : ∀ b ∈ printInt v, b < 256 := by
  intro b hb
  rw [printInt] at hb
  split at hb
  · simp only [List.mem_cons] at hb
    cases hb with
    | inl h => omega
    | inr h => exact printNat_bytes _ b h
  · exact printNat_bytes _ b hb

/-- The string parser undoes JSON escaping: the escaped body of a byte
string followed by the closing quote parses back to the string, with
any fuel above its length. -/
theorem parseStrBody_escape :
    ∀ (s : List Nat) (fuel : Nat) (r : List Nat), (∀ b ∈ s, b < 256) →
      s.length + 1 ≤ fuel →
      parseStrBody fuel (escapeStr s ++ 34 :: r) = some (s, r) := by
  intro s
  induction s with
  | nil =>
    intro fuel r _ hfuel
    obtain ⟨f, rfl⟩ : ∃ f, fuel = f + 1 := ⟨fuel - 1, by omega⟩
    simp [escapeStr, parseStrBody]
  | cons b s ih =>
    intro fuel r hb hfuel
    obtain ⟨f, rfl⟩ : ∃ f, fuel = f + 1 := ⟨fuel - 1, by omega⟩
    have hbrec := ih f r (fun x hx => hb x (by simp [hx])) (by simp at hfuel ⊢; omega)
    have hblt : b < 256 := hb b (by simp)
    rw [show escapeStr (b :: s) = escapeByte b ++ escapeStr s from rfl]
    by_cases h34 : b = 34
    · subst h34
      rw [show escapeByte 34 = [92, 34] from rfl]
      simp only [List.cons_append, List.nil_append]
      simp [parseStrBody, hbrec]
    · by_cases h92 : b = 92
      · subst h92
        rw [show escapeByte 92 = [92, 92] from rfl]
        simp only [List.cons_append, List.nil_append]
        simp [parseStrBody, hbrec]
      · by_cases hctl : b < 32
        · rw [show escapeByte b =
              [92, 117, 48, 48, hexDigitChar (b / 16), hexDigitChar (b % 16)] from by
            rw [escapeByte, if_neg h34, if_neg h92, if_pos hctl]]
          simp only [List.cons_append, List.nil_append]
          have hv1 := hexDigitVal_hexDigitChar (b / 16) (by omega)
          have hv2 := hexDigitVal_hexDigitChar (b % 16) (by omega)
          have h48 : hexDigitVal 48 = some 0 := rfl
          have harith : b / 16 * 16 + b % 16 = b := by omega
          simp [parseStrBody, h48, hv1, hv2, harith, hbrec]
        · rw [show escapeByte b = [b] from by
            rw [escapeByte, if_neg h34, if_neg h92, if_neg hctl]]
          simp only [List.cons_append, List.nil_append]
          have hcond : 32 ≤ b ∧ b < 256 := by omega
          simp [parseStrBody, h34, h92, hcond, hbrec]

/-- Escaping never shortens a string. -/
theorem escapeStr_len : ∀ s : List Nat, s.length ≤ (escapeStr s).length := by
  intro s
  induction s with
  | nil => simp [escapeStr]
  | cons b s ih =>
    have hb : 1 ≤ (escapeByte b).length := by
      unfold escapeByte
      split
      · simp
      · split
        · simp
        · split <;> simp
    simp only [escapeStr, List.length_cons, List.length_append]
    omega

/-- `skipWs` is the identity on input starting with a non-whitespace
byte. -/
theorem skipWs_cons_notWs (b : Nat) (l : List Nat) (h : isWs b = false) :
    skipWs (b :: l) = b :: l := by simp [skipWs, h]

/-- One unfolding step of `parseMembers` on a member that starts with a
quote. -/
theorem parseMembers_cons_quote (fuel : Nat) (rest : List Nat) (first : Bool) :
    parseMembers (fuel + 1) (34 :: rest) first =
      match parseStrBody fuel rest with
      | none => none
      | some (k, r1) =>
        match skipWs r1 with
        | 58 :: r2 =>
          match parseVal fuel (skipWs r2) with
          | none => none
          | some (v, r3) =>
            match skipWs r3 with
            | 44 :: r4 =>
              match parseMembers fuel (skipWs r4) false with
              | some (.jobj ms, r5) => some (.jobj ((k, v) :: ms), r5)
              | _ => none
            | 125 :: r4 => some (.jobj [(k, v)], r4)
            | _ => none
        | _ => none := by
  rw [parseMembers]
  rw [if_neg (by simp)]
  rw [if_pos rfl]

/-- The object-member parser parses a comma-separated sequence of
string-valued members up to the closing brace. -/
theorem parseMembers_strobj :
    ∀ (ms : List (List Nat × List Nat)) (fuel : Nat) (r : List Nat) (first : Bool),
      ms ≠ [] →
      (∀ m ∈ ms, (∀ b ∈ m.1, b < 256) ∧ (∀ b ∈ m.2, b < 256)) →
      (membersBytes ms ++ 125 :: r).length < fuel →
      parseMembers fuel (membersBytes ms ++ 125 :: r) first =
        some (.jobj (ms.map fun m => (m.1, .jstr m.2)), r) := by
  intro ms
  induction ms with
  | nil => intro fuel r first hne _ _; exact absurd rfl hne
  | cons hd ms ih =>
    intro fuel r first _ hok hfuel
    obtain ⟨k, v⟩ := hd
    have hkb : ∀ b ∈ k, b < 256 := (hok (k, v) (by simp)).1
    have hvb : ∀ b ∈ v, b < 256 := (hok (k, v) (by simp)).2
    have hkl := escapeStr_len k
    have hvl := escapeStr_len v
    cases ms with
    | nil =>
      have hshape : membersBytes [(k, v)] ++ 125 :: r =
          34 :: (escapeStr k ++ 34 :: 58 :: (34 :: (escapeStr v ++ 34 :: 125 :: r))) := by
        simp [membersBytes, strLit, List.append_assoc]
      rw [hshape] at hfuel ⊢
      simp only [List.length_cons, List.length_append] at hfuel
      obtain ⟨f, rfl⟩ : ∃ f, fuel = f + 1 := ⟨fuel - 1, by omega⟩
      obtain ⟨f1, rfl⟩ : ∃ f1, f = f1 + 1 := ⟨f - 1, by omega⟩
      have ekey : parseStrBody (f1 + 1)
          (escapeStr k ++ 34 :: (58 :: (34 :: (escapeStr v ++ 34 :: 125 :: r)))) =
          some (k, 58 :: (34 :: (escapeStr v ++ 34 :: 125 :: r))) :=
        parseStrBody_escape k (f1 + 1) _ hkb (by omega)
      have eval1 : parseVal (f1 + 1) (34 :: (escapeStr v ++ 34 :: 125 :: r)) =
          some (.jstr v, 125 :: r) := by
        have estr : parseStrBody f1 (escapeStr v ++ 34 :: 125 :: r) =
            some (v, 125 :: r) :=
          parseStrBody_escape v f1 _ hvb (by omega)
        simp [parseVal, estr]
      simp [parseMembers, ekey, eval1, skipWs, isWs]
    | cons m ms' =>
      have hshape : membersBytes ((k, v) :: m :: ms') ++ 125 :: r =
          34 :: (escapeStr k ++ 34 :: 58 ::
            (34 :: (escapeStr v ++ 34 :: 44 :: (membersBytes (m :: ms') ++ 125 :: r)))) := by
        simp [membersBytes, strLit, List.append_assoc]
      rw [hshape] at hfuel ⊢
      simp only [List.length_cons, List.length_append] at hfuel
      obtain ⟨f, rfl⟩ : ∃ f, fuel = f + 1 := ⟨fuel - 1, by omega⟩
      obtain ⟨f1, rfl⟩ : ∃ f1, f = f1 + 1 := ⟨f - 1, by omega⟩
      have ekey : parseStrBody (f1 + 1)
          (escapeStr k ++ 34 :: (58 ::
            (34 :: (escapeStr v ++ 34 :: 44 :: (membersBytes (m :: ms') ++ 125 :: r))))) =
          some (k, 58 :: (34 :: (escapeStr v ++ 34 :: 44 ::
            (membersBytes (m :: ms') ++ 125 :: r)))) :=
        parseStrBody_escape k (f1 + 1) _ hkb (by omega)
      have eval1 : parseVal (f1 + 1)
          (34 :: (escapeStr v ++ 34 :: 44 :: (membersBytes (m :: ms') ++ 125 :: r))) =
          some (.jstr v, 44 :: (membersBytes (m :: ms') ++ 125 :: r)) := by
        have estr : parseStrBody f1
            (escapeStr v ++ 34 :: 44 :: (membersBytes (m :: ms') ++ 125 :: r)) =
            some (v, 44 :: (membersBytes (m :: ms') ++ 125 :: r)) :=
          parseStrBody_escape v f1 _ hvb (by omega)
        simp [parseVal, estr]
      have hmlen : (membersBytes (m :: ms') ++ 125 :: r).length < f1 + 1 := by
        simp only [List.length_cons, List.length_append] at hfuel ⊢
        omega
      have erec : parseMembers (f1 + 1) (membersBytes (m :: ms') ++ 125 :: r) false =
          some (.jobj ((m :: ms').map fun x => (x.1, .jstr x.2)), r) :=
        ih (f1 + 1) r false (by simp) (fun x hx => hok x (by simp [hx])) hmlen
      have hhead : ∃ t, membersBytes (m :: ms') = 34 :: t := by
        obtain ⟨mk, mv⟩ := m
        cases ms' with
        | nil =>
          exact ⟨escapeStr mk ++ 34 :: 58 :: (34 :: (escapeStr mv ++ [34])),
            by simp [membersBytes, strLit]⟩
        | cons m2 ms2 =>
          exact ⟨escapeStr mk ++ 34 :: 58 ::
              (34 :: (escapeStr mv ++ 34 :: 44 :: membersBytes (m2 :: ms2))),
            by simp [membersBytes, strLit]⟩
      obtain ⟨t, hht⟩ := hhead
      rw [hht] at ekey eval1 erec
      rw [hht]
      simp only [List.cons_append] at ekey eval1 erec ⊢
      rw [parseMembers_cons_quote, ekey]
      dsimp only
      rw [skipWs_cons_notWs 58 _ rfl]
      dsimp only
      rw [skipWs_cons_notWs 34 _ rfl, eval1]
      dsimp only
      rw [skipWs_cons_notWs 44 _ rfl]
      dsimp only
      rw [skipWs_cons_notWs 34 _ rfl, erec]
      simp

/-- One unfolding step of `parseVal` on an object opener. -/
theorem parseVal_brace (fuel : Nat) (rest : List Nat) :
    parseVal (fuel + 1) (123 :: rest) = parseMembers fuel (skipWs rest) true := by
  simp [parseVal]

/-- A nonempty member sequence starts with a quote byte. -/
theorem membersBytes_head (m : List Nat × List Nat) (ms : List (List Nat × List Nat)) :
    ∃ t, membersBytes (m :: ms) = 34 :: t := by
  obtain ⟨mk, mv⟩ := m
  cases ms with
  | nil =>
    exact ⟨escapeStr mk ++ 34 :: 58 :: (34 :: (escapeStr mv ++ [34])),
      by simp [membersBytes, strLit]⟩
  | cons m2 ms2 =>
    exact ⟨escapeStr mk ++ 34 :: 58 ::
        (34 :: (escapeStr mv ++ 34 :: 44 :: membersBytes (m2 :: ms2))),
      by simp [membersBytes, strLit]⟩

/-- The whole-document parse of a flat object of string members. -/
theorem jsonParse_strobj (ms : List (List Nat × List Nat)) (hne : ms ≠ [])
    (hok : ∀ m ∈ ms, (∀ b ∈ m.1, b < 256) ∧ (∀ b ∈ m.2, b < 256)) :
    jsonParse (123 :: (membersBytes ms ++ [125])) =
      some (.jobj (ms.map fun m => (m.1, .jstr m.2))) := by
  obtain ⟨m, ms', rfl⟩ : ∃ m ms', ms = m :: ms' := by
    cases ms with
    | nil => exact absurd rfl hne
    | cons m ms' => exact ⟨m, ms', rfl⟩
  unfold jsonParse
  rw [skipWs_cons_notWs 123 _ rfl]
  rw [show (123 :: (membersBytes (m :: ms') ++ [125])).length + 1 =
      ((membersBytes (m :: ms') ++ [125]).length + 1) + 1 from by simp]
  rw [parseVal_brace]
  obtain ⟨t, hht⟩ := membersBytes_head m ms'
  rw [show skipWs (membersBytes (m :: ms') ++ [125]) =
      membersBytes (m :: ms') ++ [125] from by
    rw [hht]
    exact skipWs_cons_notWs 34 _ rfl]
  rw [show ([125] : List Nat) = 125 :: [] from rfl]
  rw [parseMembers_strobj (m :: ms') _ [] true (by simp) hok (by simp)]
  rfl

/-- A value accepted by `parse_i32` lies in the `i32` range. -/
theorem parse_i32_range (s : List Nat) (v : Int) (h : parse_i32 s = some v) :
    -2147483648 ≤ v ∧ v ≤ 2147483647 := by
  unfold parse_i32 at h
  by_cases h45 : s.head? = some 45
  · rw [if_pos h45] at h
    cases hp : parseNatRadix 10 digitVal s.tail with
    | none => rw [hp] at h; cases h
    | some n =>
      rw [hp] at h
      dsimp only at h
      by_cases hn : n ≤ 2147483648
      · rw [if_pos hn] at h
        cases h
        constructor <;> omega
      · rw [if_neg hn] at h
        cases h
  · rw [if_neg h45] at h
    dsimp only at h
    cases hp : parseNatRadix 10 digitVal (if s.head? = some 43 then s.tail else s) with
    | none => rw [hp] at h; cases h
    | some n =>
      rw [hp] at h
      dsimp only at h
      by_cases hn : n ≤ 2147483647
      · rw [if_pos hn] at h
        cases h
        constructor <;> omega
      · rw [if_neg hn] at h
        cases h

/-- A value accepted by `parse_u32` lies below `2^32`. -/
theorem parse_u32_range (s : List Nat) (n : Nat) (h : parse_u32 s = some n) :
    n < 4294967296 := by
  unfold parse_u32 at h
  dsimp only at h
  cases hp : parseNatRadix 10 digitVal (if s.head? = some 43 then s.tail else s) with
  | none => rw [hp] at h; cases h
  | some m =>
    rw [hp] at h
    dsimp only at h
    by_cases hm : m < 4294967296
    · rw [if_pos hm] at h
      cases h
      exact hm
    · rw [if_neg hm] at h
      cases h

/-- A value accepted by `parseHex_u32` lies below `2^32`. -/
theorem parseHex_u32_range (s : List Nat) (n : Nat) (h : parseHex_u32 s = some n) :
    n < 4294967296 := by
  unfold parseHex_u32 at h
  dsimp only at h
  cases hp : parseNatRadix 16 hexDigitVal (if s.head? = some 43 then s.tail else s) with
  | none => rw [hp] at h; cases h
  | some m =>
    rw [hp] at h
    dsimp only at h
    by_cases hm : m < 4294967296
    · rw [if_pos hm] at h
      cases h
      exact hm
    · rw [if_neg hm] at h
      cases h

/-- C8: `read_header` round-trips — re-encoding a header's fields into
the same text document shape (`version` and `map_size` decimal,
`map_crc` hexadecimal, all four values as strings of one JSON object)
and parsing again yields exactly the same `Header` and consumes exactly
the re-encoded payload; in particular this holds for every header
parsed by `read_header` whose map name is a genuine byte string. -/
theorem read_header_roundtrip :
    (∀ (h : Header) (rest : List Nat),
      -2147483648 ≤ h.version → h.version ≤ 2147483647 →
      h.map_size < 4294967296 → h.map_crc < 4294967296 →
      (∀ b ∈ h.map_name, b < 256) →
      read_header ⟨encodeHeaderBytes h ++ rest⟩ = .ok (h, ⟨rest⟩)) ∧
    (∀ (p p' : Unpacker) (h : Header) (rest : List Nat),
      read_header p = .ok (h, p') → (∀ b ∈ h.map_name, b < 256) →
      read_header ⟨encodeHeaderBytes h ++ rest⟩ = .ok (h, ⟨rest⟩)) := by
  have main : ∀ (h : Header) (rest : List Nat),
      -2147483648 ≤ h.version → h.version ≤ 2147483647 →
      h.map_size < 4294967296 → h.map_crc < 4294967296 →
      (∀ b ∈ h.map_name, b < 256) →
      read_header ⟨encodeHeaderBytes h ++ rest⟩ = .ok (h, ⟨rest⟩) := by
    intro h rest hlo hhi hsz hcrc hname
    obtain ⟨v, name, sz, crc⟩ := h
    simp only at hlo hhi hsz hcrc hname
    have hbytes : ∀ m ∈ headerMembers ⟨v, name, sz, crc⟩,
        (∀ b ∈ m.1, b < 256) ∧ (∀ b ∈ m.2, b < 256) := by
      intro m hm
      simp only [headerMembers, List.mem_cons, List.not_mem_nil, or_false] at hm
      rcases hm with rfl | rfl | rfl | rfl
      · exact ⟨by dsimp only; decide, printInt_bytes v⟩
      · exact ⟨by dsimp only; decide, hname⟩
      · exact ⟨by dsimp only; decide, printNat_bytes sz⟩
      · exact ⟨by dsimp only; decide, printHexNat_bytes crc⟩
    have hjson := jsonParse_strobj (headerMembers ⟨v, name, sz, crc⟩)
      (by simp [headerMembers]) hbytes
    unfold read_header
    rw [show (⟨encodeHeaderBytes ⟨v, name, sz, crc⟩ ++ rest⟩ : Unpacker) =
        ⟨encodeString (encodeHeaderDoc ⟨v, name, sz, crc⟩) ++ rest⟩ from rfl]
    rw [read_string_encode]
    dsimp only
    rw [show encodeHeaderDoc ⟨v, name, sz, crc⟩ =
        123 :: (membersBytes (headerMembers ⟨v, name, sz, crc⟩) ++ [125]) from rfl]
    rw [hjson]
    dsimp only
    unfold headerOfJson
    rw [show extractHeader (.jobj ((headerMembers ⟨v, name, sz, crc⟩).map
        fun m => (m.1, .jstr m.2))) =
        some ⟨printInt v, name, printNat sz, printHexNat crc⟩ from rfl]
    dsimp only
    rw [parse_i32_print v hlo hhi]
    dsimp only
    rw [parse_u32_print sz hsz]
    dsimp only
    rw [parseHex_u32_print crc hcrc]
  refine ⟨main, ?_⟩
  intro p p' h rest hok hname
  obtain ⟨pl, v0, jh, _, _, _, h1, hmn, h2, h3⟩ := read_header_field_order.2 p p' h hok
  obtain ⟨hlo, hhi⟩ := parse_i32_range _ _ h1
  exact main h rest hlo hhi (parse_u32_range _ _ h2) (parseHex_u32_range _ _ h3) hname

/-- Witness for C8: the header `version 1, map "ctf1", size 1024, crc
0xdeadbeef` re-encodes and re-parses to itself. -/
theorem read_header_roundtrip_witness :
    read_header ⟨encodeHeaderBytes ⟨1, [99, 116, 102, 49], 1024, 3735928559⟩ ++ [7]⟩ =
      .ok (⟨1, [99, 116, 102, 49], 1024, 3735928559⟩, ⟨[7]⟩) :=
  read_header_roundtrip.1 ⟨1, [99, 116, 102, 49], 1024, 3735928559⟩ [7]
    (by decide) (by decide) (by decide) (by decide) (by decide)

/-- C9: the fixed 16-byte magic constant `UUID` equals the version-3
UUID derived from the namespaced name "teehistorian@ddnet.tw" under the
Teeworlds namespace UUID by the standard deterministic MD5-based
scheme, and `read_magic` accepts exactly this byte sequence: it
succeeds on it, and any accepted 16-byte prefix is it. -/
theorem magic_uuid_v3 :
    uuidV3 UUID_TEEWORLDS TEEHISTORIAN_NAME = UUID ∧
    (∀ rest : List Nat,
      read_magic ⟨uuidV3 UUID_TEEWORLDS TEEHISTORIAN_NAME ++ rest⟩ = .ok ⟨rest⟩) ∧
    (∀ (l rest : List Nat), l.length = 16 → read_magic ⟨l ++ rest⟩ = .ok ⟨rest⟩ →
      l = uuidV3 UUID_TEEWORLDS TEEHISTORIAN_NAME) := by
  have huuid : uuidV3 UUID_TEEWORLDS TEEHISTORIAN_NAME = UUID := by decide
  have hlen : UUID.length = 16 := by decide
  refine ⟨huuid, ?_, ?_⟩
  · intro rest
    rw [huuid]
    have htake : (UUID ++ rest).take 16 = UUID := by
      rw [← hlen]
      exact List.take_left UUID rest
    have hdrop : (UUID ++ rest).drop 16 = rest := by
      rw [← hlen]
      exact List.drop_left UUID rest
    have h16 : 16 ≤ (UUID ++ rest).length := by
      simp [List.length_append, hlen]
    unfold read_magic Unpacker.read_raw
    rw [show MAGIC_LEN = 16 from rfl]
    dsimp only
    rw [if_pos h16, htake, hdrop]
    simp
  · intro l rest hl hok
    rw [huuid]
    have htake : (l ++ rest).take 16 = l := by
      rw [← hl]
      exact List.take_left l rest
    have h16 : 16 ≤ (l ++ rest).length := by
      simp [List.length_append, hl]
    unfold read_magic Unpacker.read_raw at hok
    rw [show MAGIC_LEN = 16 from rfl] at hok
    dsimp only at hok
    rw [if_pos h16, htake] at hok
    dsimp only at hok
    by_cases h : l = UUID
    · exact h
    · rw [if_pos h] at hok
      cases hok

/-- Witness for C9: the accepted magic prefix is the derived version-3
UUID. -/
theorem magic_uuid_v3_witness :
    UUID = uuidV3 UUID_TEEWORLDS TEEHISTORIAN_NAME :=
  magic_uuid_v3.2.2 UUID [] (by decide) (by decide)

end Teehistorian
